import Mathlib

/-!
# Verification of `skimage_in_jax.registration`

A shallow embedding of `src/skimage_in_jax/registration.py` (the JAX port of
scikit-image's `phase_cross_correlation`) together with proofs about it.

Conventions of the embedding:

* An N-dimensional array of shape `sh : List ℕ` is a function `Idx sh → ℂ`,
  where `Idx sh` is the iterated product `Fin n₀ × (Fin n₁ × (... × Unit))`.
* Floating-point arithmetic is modelled by exact real/complex arithmetic.
  The one place where a float produces a genuine non-real value (the NaN
  returned by `_compute_error` on a zero amplitude product) is modelled with
  `Option ℝ`, `none` standing for NaN.
* Python exceptions are modelled by `Except PccErr`; `PccErr.notImplemented`
  stands for `NotImplementedError` and `PccErr.valueError` for `ValueError`.
* The evaluation *order* of the numeric work inside `phase_cross_correlation`
  (which arrays get touched before which validation error fires) is modelled
  separately by `pccEvents`, a computable function from the static
  configuration and the two input shapes to the list of numeric array
  operations executed before the function either raises or returns.
-/

open scoped BigOperators

noncomputable section

/-- Multi-index type of an N-dimensional array of shape `sh`:
`Idx [n₀, n₁, ...] = Fin n₀ × Fin n₁ × ... × Unit`. -/
@[reducible] def Idx (sh : List ℕ) : Type :=
  sh.foldr (fun n t => Fin n × t) Unit

instance idxFintype : (sh : List ℕ) → Fintype (Idx sh)
  | [] => inferInstanceAs (Fintype Unit)
  | n :: ns =>
    haveI := idxFintype ns
    inferInstanceAs (Fintype (Fin n × Idx ns))

instance idxDecidableEq : (sh : List ℕ) → DecidableEq (Idx sh)
  | [] => inferInstanceAs (DecidableEq Unit)
  | n :: ns =>
    haveI := idxDecidableEq ns
    inferInstanceAs (DecidableEq (Fin n × Idx ns))

/-- Component `d` of a multi-index, as a bare natural number (`0` out of range). -/
def idxNthD : {sh : List ℕ} → Idx sh → ℕ → ℕ
  | [], _, _ => 0
  | _ :: _, i, 0 => (i.1 : ℕ)
  | _ :: _, i, d + 1 => idxNthD i.2 d

/-- Numerator of `numpy.fft.fftfreq`: entry `m` of `fftfreq(n, d)` is
`fftfreqNum n m / (n * d)`, i.e. `m` for `m < ⌈n/2⌉` and `m - n` otherwise. -/
def fftfreqNum (n : ℕ) (m : Fin n) : ℤ :=
  if (m : ℕ) < (n + 1) / 2 then (m : ℤ) else (m : ℤ) - n

/-- One entry of the per-axis DFT kernel built in `_upsampled_dft`
(`registration.py` lines 68–78): entry `(k, m)` is
`exp(-2πi * (k - off) * fftfreq(n, u)[m])`.  The `astype` cast of the kernel
to the data's dtype is a no-op in the exact model. -/
def dftKernel (u n : ℕ) (off : ℝ) (k : ℕ) (m : Fin n) : ℂ :=
  Complex.exp (((-2 : ℝ) * Real.pi *
    (((k : ℝ) - off) * ((fftfreqNum n m : ℝ) / ((n : ℝ) * (u : ℝ)))) : ℝ) * Complex.I)

/-- Core loop of `_upsampled_dft` (`registration.py` lines 68–83), after the
argument validation: for each dimension, from last to first, contract the data
with the per-axis kernel along that axis
(`data = jnp.tensordot(kernel, data, axes=(1, -1))`).  Since `tensordot`
contracts the *last* axis of `data` and puts the kernel's output axis first,
iterating from the last axis to the first produces exactly the nested sums
below, with the output axes in the original order; the recursion renders that
loop structurally.  Mismatched list lengths (impossible after validation,
`zip` would truncate) return `0`. -/
def upsCore (u : ℕ) : (sh region : List ℕ) → (off : List ℝ) →
    (Idx sh → ℂ) → Idx region → ℂ
  | [], [], _, data, _ => data ()
  | [], _ :: _, _, _, _ => 0
  | _ :: _, [], _, _, _ => 0
  | n :: ns, _ :: rs, off, data, k =>
    ∑ m : Fin n,
      dftKernel u n (off.headD 0) (k.1 : ℕ) m *
        upsCore u ns rs off.tail (fun i => data (m, i)) k.2

end

/-- Python's `str.lower`, on the `List Char` representation of strings. -/
def strLower (s : String) : String :=
  ⟨s.data.map Char.toLower⟩

/-- The two kinds of exceptions `registration.py` raises:
`NotImplementedError` and `ValueError`. -/
inductive PccErr where
  | notImplemented (msg : String)
  | valueError (msg : String)
deriving DecidableEq

/-- The keyword arguments of `phase_cross_correlation` (lines 86–97).  The two
mask arguments are reduced to their `is not None` status, which is all the code
inspects before raising.  `overlap_r` models `overlap_ratio`. -/
structure PccConfig where
  upsample_factor : ℕ := 1
  space : String := "real"
  disambiguate : Bool := false
  hasRefMask : Bool := false
  hasMovMask : Bool := false
  overlap_r : ℝ := 0.3
  normalization : Option String := some "phase"

/-- The triple returned by `phase_cross_correlation`: per-axis shift (junk `0`
beyond the dimensionality), error (with `none` modelling float NaN), and
global phase difference. -/
structure PccResult where
  shift : ℕ → ℝ
  error : Option ℝ
  phasediff : ℝ

noncomputable section

/-- N-dimensional forward DFT (`jax.numpy.fft.fftn`), rendered as the nested
per-axis sums of the separable kernel `exp(-2πi Σ_d k_d m_d / n_d)`. -/
def fftnRec : (sh : List ℕ) → (Idx sh → ℂ) → Idx sh → ℂ
  | [], data, _ => data ()
  | n :: ns, data, k =>
    ∑ m : Fin n,
      Complex.exp (((-2 : ℝ) * Real.pi * ((((k.1 : ℕ) : ℝ) * ((m : ℕ) : ℝ)) / (n : ℝ)) : ℝ) *
        Complex.I) * fftnRec ns (fun i => data (m, i)) k.2

/-- N-dimensional inverse DFT (`jax.numpy.fft.ifftn`), with the `1/n`
normalization factor per axis. -/
def ifftnRec : (sh : List ℕ) → (Idx sh → ℂ) → Idx sh → ℂ
  | [], data, _ => data ()
  | n :: ns, data, k =>
    (∑ m : Fin n,
      Complex.exp ((((2 : ℝ) * Real.pi * ((((k.1 : ℕ) : ℝ) * ((m : ℕ) : ℝ)) / (n : ℝ))) : ℝ) *
        Complex.I) * ifftnRec ns (fun i => data (m, i)) k.2) / (n : ℂ)

end

/-- All multi-indices of shape `sh` in C (row-major) order, the flattening
order `jnp.argmax`/`jnp.unravel_index` use. -/
def enumIdx : (sh : List ℕ) → List (Idx sh)
  | [] => [()]
  | n :: ns => (List.finRange n).flatMap fun m => (enumIdx ns).map fun t => (m, t)

noncomputable section

/-- First element of the list attaining the maximal value of `f`
(`jnp.argmax` returns the first maximal position in flattening order);
`none` on the empty list (where `jnp.argmax` raises). -/
def argmaxList {α : Type} (f : α → ℝ) : List α → Option α
  | [] => none
  | x :: xs => some (xs.foldl (fun best y => if f best < f y then y else best) x)

/-- `_compute_error` (lines 294–322): `amp = src_amp * target_amp`;
`error = sqrt(|1 - CCmax·conj(CCmax)/amp|)`.  In floating point a zero `amp`
makes the division produce NaN which then propagates; the model returns
`none` for that NaN (and the code deliberately does not raise). -/
def computeError (cross_correlation_max : ℂ) (src_amp target_amp : ℝ) : Option ℝ :=
  let amp := src_amp * target_amp
  if amp = 0 then none
  else some (Real.sqrt (Complex.abs
    (1 - cross_correlation_max * (starRingEnd ℂ) cross_correlation_max / (amp : ℂ))))

/-- `_compute_phasediff` (lines 325–335): `arctan2(Im CCmax, Re CCmax)`,
which is exactly `Complex.arg` (with `arg 0 = 0 = arctan2(0, 0)`). -/
def computePhasediff (cross_correlation_max : ℂ) : ℝ :=
  Complex.arg cross_correlation_max

/-- Lines 214–223 of `phase_cross_correlation`: interpret the inputs per the
`space` argument (case-insensitively), or reject it. -/
def freqPair (sh : List ℕ) (reference_image moving_image : Idx sh → ℂ) (space : String) :
    Except PccErr ((Idx sh → ℂ) × (Idx sh → ℂ)) :=
  if strLower space = "fourier" then .ok (reference_image, moving_image)
  else if strLower space = "real" then .ok (fftnRec sh reference_image, fftnRec sh moving_image)
  else .error (.valueError "space argument must be \"real\" or \"fourier\"")

/-- Lines 228–232: phase normalization of the cross-power spectrum, guarding
the division by `max(|·|, 100·eps)`, or rejection of an unknown
`normalization` value.  `eps` models `jnp.finfo(float_dtype).eps`. -/
def normalizeProduct (sh : List ℕ) (normalization : Option String) (eps : ℝ)
    (image_product : Idx sh → ℂ) : Except PccErr (Idx sh → ℂ) :=
  match normalization with
  | some s =>
    if s = "phase" then
      .ok fun i => image_product i / ((max (Complex.abs (image_product i)) (100 * eps) : ℝ) : ℂ)
    else .error (.valueError "normalization must be either phase or None")
  | none => .ok image_product

/-- Lines 240–244: fold the argmax index into a signed shift, comparing
against `midpoint = floor(shape/2)` exactly as the float code does. -/
def wrapShift (m n : ℕ) : ℝ :=
  if ((⌊(n : ℝ) / 2⌋ : ℤ) : ℝ) < (m : ℝ) then (m : ℝ) - (n : ℝ) else (m : ℝ)

/-- `jnp.round`: round half to even. -/
def roundEven (x : ℝ) : ℤ :=
  if Int.fract x < 1 / 2 then ⌊x⌋
  else if 1 / 2 < Int.fract x then ⌊x⌋ + 1
  else if ⌊x⌋ % 2 = 0 then ⌊x⌋ else ⌊x⌋ + 1

/-- `src_freq.size`: the number of elements of an array of shape `sh`. -/
def arraySize (sh : List ℕ) : ℕ := sh.prod

/-- Line 256: `upsampled_region_size = ceil(upsample_factor * 1.5)`. -/
def upsRegionSize (u : ℕ) : ℕ := (⌈(u : ℝ) * 1.5⌉).toNat

/-- Line 258: `dftshift = floor(upsampled_region_size / 2.0)`. -/
def upsDftshift (u : ℕ) : ℤ := ⌊(upsRegionSize u : ℝ) / 2⌋

/-- Lines 280–291: zero the shift on singleton axes, raise on
`disambiguate=True` (only now!), and assemble the returned triple. -/
def pccFinish (sh : List ℕ) (disambiguate : Bool) (shiftPre : ℕ → ℝ) (ccMax : ℂ)
    (src_amp target_amp : ℝ) : Except PccErr PccResult :=
  let shift : ℕ → ℝ := fun d => if sh.getD d 1 = 1 then 0 else shiftPre d
  if disambiguate then .error (.notImplemented "disambiguation is not yet supported")
  else .ok ⟨shift, computeError ccMax src_amp target_amp, computePhasediff ccMax⟩

/-- `phase_cross_correlation` (lines 86–291) on two same-shaped arrays.  The
shape-mismatch branch (lines 207–212) cannot fire here because both images
share the index type `Idx sh`; the validation order over two raw shapes is
modelled by `pccEvents` below.  `eps` stands for the machine epsilon of the
derived float dtype (line 229). -/
def phase_cross_correlation (sh : List ℕ) (reference_image moving_image : Idx sh → ℂ)
    (cfg : PccConfig) (eps : ℝ) : Except PccErr PccResult :=
  if cfg.hasRefMask || cfg.hasMovMask then
    .error (.notImplemented "Masked phase cross-correlation is not implemented.")
  else
    match freqPair sh reference_image moving_image cfg.space with
    | .error e => .error e
    | .ok (src_freq, target_freq) =>
      match normalizeProduct sh cfg.normalization eps
          (fun i => src_freq i * (starRingEnd ℂ) (target_freq i)) with
      | .error e => .error e
      | .ok image_product =>
        let cross_correlation := ifftnRec sh image_product
        match argmaxList (fun i => Complex.abs (cross_correlation i)) (enumIdx sh) with
        | none => .error (.valueError "attempt to get argmax of an empty sequence")
        | some maxima =>
          let shift0 : ℕ → ℝ := fun d => wrapShift (idxNthD maxima d) (sh.getD d 1)
          if cfg.upsample_factor = 1 then
            let src_amp := (∑ i : Idx sh, (src_freq i * (starRingEnd ℂ) (src_freq i)).re) /
              (arraySize sh : ℝ)
            let target_amp := (∑ i : Idx sh, (target_freq i * (starRingEnd ℂ) (target_freq i)).re) /
              (arraySize sh : ℝ)
            pccFinish sh cfg.disambiguate shift0 (cross_correlation maxima) src_amp target_amp
          else
            let u := cfg.upsample_factor
            let shift1 : ℕ → ℝ := fun d => ((roundEven (shift0 d * (u : ℝ)) : ℤ) : ℝ) / (u : ℝ)
            let dftshift : ℤ := upsDftshift u
            let region : List ℕ := List.replicate sh.length (upsRegionSize u)
            let offsets : List ℝ :=
              (List.range sh.length).map fun d => (dftshift : ℝ) - shift1 d * (u : ℝ)
            let patch : Idx region → ℂ := fun k =>
              (starRingEnd ℂ)
                (upsCore u sh region offsets (fun i => (starRingEnd ℂ) (image_product i)) k)
            match argmaxList (fun k => Complex.abs (patch k)) (enumIdx region) with
            | none => .error (.valueError "attempt to get argmax of an empty sequence")
            | some maxima2 =>
              let ccMax := patch maxima2
              let shift2 : ℕ → ℝ := fun d =>
                shift1 d + (((idxNthD maxima2 d : ℕ) : ℝ) - (dftshift : ℝ)) / (u : ℝ)
              let src_amp := ∑ i : Idx sh, (src_freq i * (starRingEnd ℂ) (src_freq i)).re
              let target_amp := ∑ i : Idx sh, (target_freq i * (starRingEnd ℂ) (target_freq i)).re
              pccFinish sh cfg.disambiguate shift2 ccMax src_amp target_amp

/-- Projection of the returned shift at axis `d`, for stating claims. -/
def shiftAt (e : Except PccErr PccResult) (d : ℕ) : Except PccErr ℝ :=
  e.map fun r => r.shift d

/-- Projection of the returned error, for stating claims. -/
def errAt (e : Except PccErr PccResult) : Except PccErr (Option ℝ) :=
  e.map fun r => r.error

end

/-! ## Evaluation-order model

`pccEvents` records, as a function of the static configuration and the two
input shapes only (JAX control flow never depends on array values), the
sequence of numeric array operations `phase_cross_correlation` executes
before it either raises or returns.  One event is emitted per `jnp` array
operation, classified as a DFT, an elementwise operation, or a reduction. -/

/-- Kinds of numeric array work. -/
inductive NumEvent where
  | dft
  | elemwise
  | reduction
deriving DecidableEq

/-- Events and outcome of lines 280–291 (common to both branches): the
singleton-axis `where`, then — only now — the `disambiguate` check, then the
error and phase-difference computations. -/
def pccEventsTail (cfg : PccConfig) (acc : List NumEvent) : List NumEvent × Option PccErr :=
  let acc := acc ++ [NumEvent.elemwise]
  if cfg.disambiguate then (acc, some (.notImplemented "disambiguation is not yet supported"))
  else (acc ++ [NumEvent.elemwise, NumEvent.elemwise], none)

/-- Events and outcome of lines 234–278: inverse DFT, magnitude, argmax
(raising on an empty array), then the branch on `upsample_factor`. -/
def pccEventsRest (cfg : PccConfig) (sh : List ℕ) (acc : List NumEvent) :
    List NumEvent × Option PccErr :=
  let acc := acc ++ [NumEvent.dft, NumEvent.elemwise]
  if sh.contains 0 then
    (acc, some (.valueError "attempt to get argmax of an empty sequence"))
  else
    let acc := acc ++ [NumEvent.reduction]
    if cfg.upsample_factor = 1 then
      -- lines 247–250: the two amplitude means
      pccEventsTail cfg (acc ++ [NumEvent.elemwise, NumEvent.reduction,
        NumEvent.elemwise, NumEvent.reduction])
    else
      -- line 255: rounding; lines 261–266: per-axis kernel and contraction,
      -- then the conjugation; line 268: magnitude
      let acc := acc ++ [NumEvent.elemwise]
      let acc := acc ++ (List.range sh.length).flatMap
        (fun _ => [NumEvent.elemwise, NumEvent.reduction])
      let acc := acc ++ [NumEvent.elemwise, NumEvent.elemwise]
      -- the upsampled region size ceil(1.5·u) is zero exactly when u = 0, in
      -- which case the argmax over the empty patch raises
      if cfg.upsample_factor = 0 then
        (acc, some (.valueError "attempt to get argmax of an empty sequence"))
      else
        -- line 268 argmax; lines 273–275 refinement; lines 277–278 amplitude sums
        pccEventsTail cfg (acc ++ [NumEvent.reduction, NumEvent.elemwise,
          NumEvent.elemwise, NumEvent.reduction, NumEvent.elemwise, NumEvent.reduction])

/-- Events and outcome of `phase_cross_correlation` on raw inputs of shapes
`sh₁`, `sh₂`, in source order: the mask check (line 203), the shape check
(lines 208–212), the `space` dispatch with its two forward DFTs in the
`"real"` branch (lines 214–223), the cross-power product (line 226), the
normalization step (lines 228–232), then `pccEventsRest`. -/
def pccEvents (cfg : PccConfig) (sh₁ sh₂ : List ℕ) : List NumEvent × Option PccErr :=
  if cfg.hasRefMask || cfg.hasMovMask then
    ([], some (.notImplemented "Masked phase cross-correlation is not implemented."))
  else if sh₁ ≠ sh₂ then
    ([], some (.valueError "images must be same shape"))
  else if strLower cfg.space = "fourier" ∨ strLower cfg.space = "real" then
    let e₁ : List NumEvent := if strLower cfg.space = "real" then [.dft, .dft] else []
    let e₂ := e₁ ++ [NumEvent.elemwise]
    match cfg.normalization with
    | some s =>
      if s = "phase" then
        pccEventsRest cfg sh₁ (e₂ ++ [NumEvent.elemwise, NumEvent.elemwise, NumEvent.elemwise])
      else (e₂, some (.valueError "normalization must be either phase or None"))
    | none => pccEventsRest cfg sh₁ e₂
  else ([], some (.valueError "space argument must be \"real\" or \"fourier\""))

/-! ## Argument validation of `_upsampled_dft` -/

/-- The `upsampled_region_size` argument: a bare integer or a sequence
(lines 45–55). -/
inductive RegionSizeArg where
  | scalar (k : ℕ)
  | seq (l : List ℕ)
deriving DecidableEq

/-- Lines 57–66: default or length-check the `axis_offsets` argument. -/
def upsValidateOff (ndim : ℕ) (region : List ℕ) (axis_offsets : Option (List ℝ)) :
    Except PccErr (List ℕ × List ℝ) :=
  match axis_offsets with
  | none => .ok (region, List.replicate ndim 0)
  | some o =>
    if o.length ≠ ndim then
      .error (.valueError
        "number of axis offsets must be equal to input data's number of dimensions.")
    else .ok (region, o)

/-- Lines 45–66: broadcast or length-check `upsampled_region_size`, then
validate `axis_offsets`; returns the normalized pair on success. -/
def upsValidate (ndim : ℕ) (upsampled_region_size : RegionSizeArg)
    (axis_offsets : Option (List ℝ)) : Except PccErr (List ℕ × List ℝ) :=
  match upsampled_region_size with
  | .scalar k => upsValidateOff ndim (List.replicate ndim k) axis_offsets
  | .seq l =>
    if l.length ≠ ndim then
      .error (.valueError
        "shape of upsampled region sizes must be equal to input data's number of dimensions.")
    else upsValidateOff ndim l axis_offsets

/-! ## Spec-side definitions

These follow the specification's words, to be compared against the
definitions translated from the source. -/

/-- Spec, §4.2 step 5: the claimed wrap rule
`shift[d] = maxima[d] - shape[d]` when `maxima[d] > floor(shape[d]/2)`,
else `maxima[d]`. -/
noncomputable def wrapSpec (m n : ℕ) : ℝ :=
  if n / 2 < m then (m : ℝ) - (n : ℝ) else (m : ℝ)

/-- The wrap rule as an integer, for reasoning about the rounding step. -/
def wrapInt (m n : ℕ) : ℤ :=
  if n / 2 < m then (m : ℤ) - (n : ℤ) else (m : ℤ)

/-- Position of sample `m` of an `n`-point spectrum inside the
`u·n`-point zero-padded, inverse-shifted spectrum: zero-padding a spectrum
to `u·n` samples keeps each sample at its own (signed, centered) frequency
`fftfreqNum n m`, and the inverse shift places frequency `c` at index
`c mod (n·u)`. -/
def padPos (n u : ℕ) (m : Fin n) : ℤ :=
  fftfreqNum n m % ((n : ℤ) * (u : ℤ))

/-- The padded shape: `u` times larger in each dimension. -/
def padDims : List ℕ → ℕ → List ℕ
  | [], _ => []
  | n :: ns, u => n * u :: padDims ns u

/-- Spec, §4.1: the array obtained by zero-padding `data` to
`u × shape` in each dimension and inverse-shifting: sample `m` sits at
multi-position `padPos` per axis, everything else is zero. -/
noncomputable def padArrN : (sh : List ℕ) → (u : ℕ) → (Idx sh → ℂ) →
    Idx (padDims sh u) → ℂ
  | [], _, data, _ => data ()
  | n :: ns, u, data, p =>
    ∑ m : Fin n,
      if padPos n u m = ((p.1 : ℕ) : ℤ) then padArrN ns u (fun i => data (m, i)) p.2 else 0

/-- The full N-dimensional DFT of an array of shape `dims`, evaluated at an
integer frequency per axis (the DFT formula `Σ_p exp(-2πi Σ_d j_d p_d / N_d) x[p]`
is defined for every integer `j_d` and is periodic, which is how a window
with negative start indices is sliced). -/
noncomputable def fullDftN : (dims : List ℕ) → (Idx dims → ℂ) → List ℤ → ℂ
  | [], x, _ => x ()
  | n :: ns, x, js =>
    ∑ p : Fin n,
      Complex.exp (((-2 : ℝ) * Real.pi * (((js.headD 0 : ℤ) : ℝ) * ((p : ℕ) : ℝ) / (n : ℝ)) : ℝ) *
        Complex.I) * fullDftN ns (fun q => x (p, q)) js.tail

/-- Spec, §4.1: zero-pad `data` to `u × shape`, inverse-shift, take the full
DFT of the larger array, and read it at the integer frequencies `js` (one per
axis): the value of the claimed equivalent computation at window position
`k` is this with `js` built from `k` and the axis offsets. -/
noncomputable def paddedDftSlice (sh : List ℕ) (u : ℕ) (data : Idx sh → ℂ) (js : List ℤ) : ℂ :=
  fullDftN (padDims sh u) (padArrN sh u data) js

/-- Spec, §4.1 algorithm: the separable kernel of `_upsampled_dft` — the
product over axes `d` of `exp(-2πi (k_d - offset_d) freq(m_d, n_d, u))`. -/
noncomputable def kernProd (u : ℕ) : (sh region : List ℕ) → (off : List ℝ) →
    Idx region → Idx sh → ℂ
  | [], [], _, _, _ => 1
  | [], _ :: _, _, _, _ => 0
  | _ :: _, [], _, _, _ => 0
  | n :: ns, _ :: rs, off, k, m =>
    dftKernel u n (off.headD 0) (k.1 : ℕ) m.1 * kernProd u ns rs off.tail k.2 m.2



/-- The per-axis integer frequencies `k_d - axis_offsets[d]` at which the
window of the padded full DFT is read (window starting at `-axis_offsets`). -/
def idxSubList : (region : List ℕ) → Idx region → List ℤ → List ℤ
  | [], _, _ => []
  | _ :: rs, k, off => (((k.1 : ℕ) : ℤ) - off.headD 0) :: idxSubList rs k.2 off.tail

/-- Concrete 1-D spectrum `(0, 1)` separating the two slicing conventions. -/
noncomputable def c2data : Idx [2] → ℂ := fun i => if (i.1 : ℕ) = 0 then 0 else 1

/-! ## Concrete inputs for the subpixel-branch analysis

A one-dimensional two-pixel pair of frequency-domain inputs on which the
subpixel-refined shift leaves the claimed `(-shape/2, shape/2]` interval. -/

/-- Reference spectrum `(1, -1-2i)`. -/
noncomputable def c3ref : Idx [2] → ℂ := fun i => if (i.1 : ℕ) = 0 then 1 else -1 - 2 * Complex.I

/-- Moving spectrum `(1, 1)`. -/
noncomputable def c3mov : Idx [2] → ℂ := fun _ => 1

/-- Their cross-power spectrum (normalization is None in the example). -/
noncomputable def c3ip : Idx [2] → ℂ := fun i => c3ref i * (starRingEnd ℂ) (c3mov i)

/-! ## Basic lemmas -/

theorem intFloor_natCast_div_two (n : ℕ) : ⌊(n : ℝ) / 2⌋ = ((n / 2 : ℕ) : ℤ) := by
  have h : ((n : ℝ) / 2) = (((n : ℚ) / 2 : ℚ) : ℝ) := by push_cast; ring
  rw [h, Rat.floor_cast]
  exact_mod_cast Rat.floor_natCast_div_natCast n 2

theorem upsRegionSize_eq (u : ℕ) : upsRegionSize u = (3 * u + 1) / 2 := by
  have h : ((u : ℝ) * 1.5) = ((((3 * u : ℕ) : ℤ) : ℚ) / ((2 : ℕ) : ℚ) : ℚ) := by
    push_cast; ring
  have h2 : (⌈(u : ℝ) * 1.5⌉ : ℤ) = (((3 * u + 1) / 2 : ℕ) : ℤ) := by
    rw [h, Rat.ceil_cast]
    rw [show ((((3 * u : ℕ) : ℤ) : ℚ) / ((2 : ℕ) : ℚ) : ℚ) =
        -((((-(3 * u : ℕ) : ℤ) : ℚ)) / ((2 : ℕ) : ℚ)) by push_cast; ring]
    rw [Int.ceil_neg, Rat.floor_intCast_div_natCast]
    omega
  unfold upsRegionSize
  rw [h2]
  exact Int.toNat_natCast _

theorem upsDftshift_eq (u : ℕ) : upsDftshift u = ((upsRegionSize u / 2 : ℕ) : ℤ) := by
  unfold upsDftshift
  exact intFloor_natCast_div_two _

theorem wrapShift_eq_wrapSpec (m n : ℕ) : wrapShift m n = wrapSpec m n := by
  unfold wrapShift wrapSpec
  rw [intFloor_natCast_div_two]
  by_cases h : n / 2 < m
  · rw [if_pos (by exact_mod_cast h), if_pos h]
  · rw [if_neg (by exact_mod_cast h), if_neg h]

theorem wrapSpec_eq_wrapInt (m n : ℕ) : wrapSpec m n = ((wrapInt m n : ℤ) : ℝ) := by
  unfold wrapSpec wrapInt
  by_cases h : n / 2 < m
  · rw [if_pos h, if_pos h]; push_cast; ring
  · rw [if_neg h, if_neg h]; push_cast; ring

theorem roundEven_intCast (z : ℤ) : roundEven ((z : ℤ) : ℝ) = z := by
  unfold roundEven
  rw [Int.fract_intCast, Int.floor_intCast]
  norm_num

theorem argmaxList_isSome {α : Type} (f : α → ℝ) (l : List α) (h : l ≠ []) :
    ∃ y, argmaxList f l = some y := by
  cases l with
  | nil => exact absurd rfl h
  | cons x xs => exact ⟨_, rfl⟩

theorem enumIdx_ne_nil : ∀ (sh : List ℕ), (∀ n ∈ sh, 0 < n) → enumIdx sh ≠ []
  | [], _ => by simp [enumIdx]
  | n :: ns, h => by
    intro hnil
    rw [enumIdx, List.flatMap_eq_nil_iff] at hnil
    have hn : 0 < n := h n (by simp)
    have h0 : (⟨0, hn⟩ : Fin n) ∈ List.finRange n := List.mem_finRange _
    have := hnil _ h0
    rw [List.map_eq_nil_iff] at this
    exact enumIdx_ne_nil ns (fun m hm => h m (by simp [hm])) this

theorem idxNthD_lt : ∀ (sh : List ℕ) (i : Idx sh) (d : ℕ), d < sh.length →
    idxNthD i d < sh.getD d 1
  | [], _, d, hd => by simp at hd
  | n :: ns, i, 0, _ => i.1.isLt
  | n :: ns, i, d + 1, hd =>
    idxNthD_lt ns i.2 d (by simpa using hd)

/-! ## Pipeline path lemmas -/

theorem pcc_masked (sh : List ℕ) (ref mov : Idx sh → ℂ) (cfg : PccConfig) (eps : ℝ)
    (h : cfg.hasRefMask = true ∨ cfg.hasMovMask = true) :
    phase_cross_correlation sh ref mov cfg eps =
      .error (.notImplemented "Masked phase cross-correlation is not implemented.") := by
  unfold phase_cross_correlation
  rcases h with h | h <;> simp [h]

theorem pcc_space_error (sh : List ℕ) (ref mov : Idx sh → ℂ) (cfg : PccConfig) (eps : ℝ)
    (hm1 : cfg.hasRefMask = false) (hm2 : cfg.hasMovMask = false)
    (hs : ¬(strLower cfg.space = "fourier" ∨ strLower cfg.space = "real")) :
    phase_cross_correlation sh ref mov cfg eps =
      .error (.valueError "space argument must be \"real\" or \"fourier\"") := by
  rw [not_or] at hs
  unfold phase_cross_correlation freqPair
  simp [hm1, hm2, hs.1, hs.2]

theorem pcc_norm_error (sh : List ℕ) (ref mov : Idx sh → ℂ) (cfg : PccConfig) (eps : ℝ)
    (hm1 : cfg.hasRefMask = false) (hm2 : cfg.hasMovMask = false)
    (hs : strLower cfg.space = "fourier" ∨ strLower cfg.space = "real")
    (s : String) (hn : cfg.normalization = some s) (hs' : s ≠ "phase") :
    phase_cross_correlation sh ref mov cfg eps =
      .error (.valueError "normalization must be either phase or None") := by
  unfold phase_cross_correlation freqPair normalizeProduct
  rcases hs with h | h
  · simp [hm1, hm2, h, hn, hs']
  · by_cases h4 : strLower cfg.space = "fourier" <;> simp [hm1, hm2, h, h4, hn, hs']

theorem pcc_u1_eq (sh : List ℕ) (ref mov : Idx sh → ℂ) (cfg : PccConfig) (eps : ℝ)
    (hm1 : cfg.hasRefMask = false) (hm2 : cfg.hasMovMask = false)
    (sf tf : Idx sh → ℂ)
    (hfp : freqPair sh ref mov cfg.space = .ok (sf, tf))
    (ip : Idx sh → ℂ)
    (hnp : normalizeProduct sh cfg.normalization eps
      (fun i => sf i * (starRingEnd ℂ) (tf i)) = .ok ip)
    (mx : Idx sh)
    (hmx : argmaxList (fun i => Complex.abs (ifftnRec sh ip i)) (enumIdx sh) = some mx)
    (hu : cfg.upsample_factor = 1) :
    phase_cross_correlation sh ref mov cfg eps =
      pccFinish sh cfg.disambiguate
        (fun d => wrapShift (idxNthD mx d) (sh.getD d 1))
        (ifftnRec sh ip mx)
        ((∑ i : Idx sh, (sf i * (starRingEnd ℂ) (sf i)).re) / (arraySize sh : ℝ))
        ((∑ i : Idx sh, (tf i * (starRingEnd ℂ) (tf i)).re) / (arraySize sh : ℝ)) := by
  unfold phase_cross_correlation
  rw [hfp]
  simp only [hm1, hm2, Bool.or_self, Bool.false_eq_true, if_false]
  rw [hnp]
  simp only []
  rw [hmx]
  simp only [hu, if_pos]

theorem pcc_ups_eq (sh : List ℕ) (ref mov : Idx sh → ℂ) (cfg : PccConfig) (eps : ℝ)
    (hm1 : cfg.hasRefMask = false) (hm2 : cfg.hasMovMask = false)
    (sf tf : Idx sh → ℂ)
    (hfp : freqPair sh ref mov cfg.space = .ok (sf, tf))
    (ip : Idx sh → ℂ)
    (hnp : normalizeProduct sh cfg.normalization eps
      (fun i => sf i * (starRingEnd ℂ) (tf i)) = .ok ip)
    (mx : Idx sh)
    (hmx : argmaxList (fun i => Complex.abs (ifftnRec sh ip i)) (enumIdx sh) = some mx)
    (hu : ¬cfg.upsample_factor = 1)
    (reg : List ℕ)
    (hR : List.replicate sh.length (upsRegionSize cfg.upsample_factor) = reg)
    (shift1 : ℕ → ℝ)
    (hs1 : shift1 = fun d =>
      ((roundEven (wrapShift (idxNthD mx d) (sh.getD d 1) * (cfg.upsample_factor : ℝ)) : ℤ) : ℝ) /
        (cfg.upsample_factor : ℝ))
    (offsets : List ℝ)
    (hoffs : offsets = (List.range sh.length).map fun d =>
      ((upsDftshift cfg.upsample_factor : ℤ) : ℝ) - shift1 d * (cfg.upsample_factor : ℝ))
    (patch : Idx reg → ℂ)
    (hpatch : patch = fun k => (starRingEnd ℂ)
      (upsCore cfg.upsample_factor sh reg
        offsets (fun i => (starRingEnd ℂ) (ip i)) k))
    (mx2 : Idx reg)
    (hmx2 : argmaxList (fun k => Complex.abs (patch k))
      (enumIdx reg) = some mx2) :
    phase_cross_correlation sh ref mov cfg eps =
      pccFinish sh cfg.disambiguate
        (fun d => shift1 d +
          (((idxNthD mx2 d : ℕ) : ℝ) - ((upsDftshift cfg.upsample_factor : ℤ) : ℝ)) /
            (cfg.upsample_factor : ℝ))
        (patch mx2)
        (∑ i : Idx sh, (sf i * (starRingEnd ℂ) (sf i)).re)
        (∑ i : Idx sh, (tf i * (starRingEnd ℂ) (tf i)).re) := by
  subst hR hs1 hoffs hpatch
  unfold phase_cross_correlation
  rw [hfp]
  simp only [hm1, hm2, Bool.or_self, Bool.false_eq_true, if_false]
  rw [hnp]
  simp only []
  rw [hmx]
  simp only [if_neg hu]
  rw [hmx2]

theorem upsRegionSize_pos (u : ℕ) (hu : u ≠ 0) : 0 < upsRegionSize u := by
  rw [upsRegionSize_eq]
  omega

theorem freqPair_ok (sh : List ℕ) (ref mov : Idx sh → ℂ) (space : String)
    (hs : strLower space = "fourier" ∨ strLower space = "real") :
    ∃ sf tf, freqPair sh ref mov space = .ok (sf, tf) := by
  unfold freqPair
  rcases hs with h | h
  · rw [if_pos h]; exact ⟨_, _, rfl⟩
  · by_cases h4 : strLower space = "fourier"
    · rw [if_pos h4]; exact ⟨_, _, rfl⟩
    · rw [if_neg h4, if_pos h]; exact ⟨_, _, rfl⟩

theorem normalizeProduct_ok (sh : List ℕ) (norm : Option String) (eps : ℝ)
    (ip : Idx sh → ℂ) (hn : norm = none ∨ norm = some "phase") :
    ∃ ip2, normalizeProduct sh norm eps ip = .ok ip2 := by
  unfold normalizeProduct
  rcases hn with h | h <;> rw [h]
  · exact ⟨_, rfl⟩
  · refine ⟨fun i => ip i / ((max (Complex.abs (ip i)) (100 * eps) : ℝ) : ℂ), ?_⟩
    simp

theorem pcc_disambiguate_error (sh : List ℕ) (ref mov : Idx sh → ℂ) (cfg : PccConfig) (eps : ℝ)
    (hm1 : cfg.hasRefMask = false) (hm2 : cfg.hasMovMask = false)
    (hs : strLower cfg.space = "fourier" ∨ strLower cfg.space = "real")
    (hn : cfg.normalization = none ∨ cfg.normalization = some "phase")
    (hd : cfg.disambiguate = true)
    (hsh : ∀ n ∈ sh, 0 < n) (hu0 : cfg.upsample_factor ≠ 0) :
    phase_cross_correlation sh ref mov cfg eps =
      .error (.notImplemented "disambiguation is not yet supported") := by
  obtain ⟨sf, tf, hfp⟩ := freqPair_ok sh ref mov cfg.space hs
  obtain ⟨ip, hnp⟩ := normalizeProduct_ok sh cfg.normalization eps
    (fun i => sf i * (starRingEnd ℂ) (tf i)) hn
  obtain ⟨mx, hmx⟩ := argmaxList_isSome (fun i => Complex.abs (ifftnRec sh ip i)) _
    (enumIdx_ne_nil sh hsh)
  by_cases hu : cfg.upsample_factor = 1
  · rw [pcc_u1_eq sh ref mov cfg eps hm1 hm2 sf tf hfp ip hnp mx hmx hu]
    simp [pccFinish, hd]
  · have hreg : ∀ n ∈ List.replicate sh.length (upsRegionSize cfg.upsample_factor), 0 < n := by
      intro n hmem
      rw [List.eq_of_mem_replicate hmem]
      exact upsRegionSize_pos _ hu0
    obtain ⟨mx2, hmx2⟩ := argmaxList_isSome
      (fun k => Complex.abs ((starRingEnd ℂ)
        (upsCore cfg.upsample_factor sh
          (List.replicate sh.length (upsRegionSize cfg.upsample_factor))
          ((List.range sh.length).map fun d =>
            ((upsDftshift cfg.upsample_factor : ℤ) : ℝ) -
              (((roundEven (wrapShift (idxNthD mx d) (sh.getD d 1) *
                (cfg.upsample_factor : ℝ)) : ℤ) : ℝ) / (cfg.upsample_factor : ℝ)) *
                (cfg.upsample_factor : ℝ))
          (fun i => (starRingEnd ℂ) (ip i)) k)))
      _ (enumIdx_ne_nil _ hreg)
    rw [pcc_ups_eq sh ref mov cfg eps hm1 hm2 sf tf hfp ip hnp mx hmx hu _ rfl _ rfl _ rfl _ rfl
      mx2 hmx2]
    simp [pccFinish, hd]

theorem pcc_ok_form (sh : List ℕ) (ref mov : Idx sh → ℂ) (cfg : PccConfig) (eps : ℝ)
    (hm1 : cfg.hasRefMask = false) (hm2 : cfg.hasMovMask = false)
    (hs : strLower cfg.space = "fourier" ∨ strLower cfg.space = "real")
    (hn : cfg.normalization = none ∨ cfg.normalization = some "phase")
    (hd : cfg.disambiguate = false)
    (hsh : ∀ n ∈ sh, 0 < n) (hu0 : cfg.upsample_factor ≠ 0) :
    ∃ (shiftPre : ℕ → ℝ) (ccMax : ℂ) (sAmp tAmp : ℝ),
      phase_cross_correlation sh ref mov cfg eps =
        .ok ⟨fun d => if sh.getD d 1 = 1 then 0 else shiftPre d,
          computeError ccMax sAmp tAmp, computePhasediff ccMax⟩ := by
  obtain ⟨sf, tf, hfp⟩ := freqPair_ok sh ref mov cfg.space hs
  obtain ⟨ip, hnp⟩ := normalizeProduct_ok sh cfg.normalization eps
    (fun i => sf i * (starRingEnd ℂ) (tf i)) hn
  obtain ⟨mx, hmx⟩ := argmaxList_isSome (fun i => Complex.abs (ifftnRec sh ip i)) _
    (enumIdx_ne_nil sh hsh)
  by_cases hu : cfg.upsample_factor = 1
  · rw [pcc_u1_eq sh ref mov cfg eps hm1 hm2 sf tf hfp ip hnp mx hmx hu]
    unfold pccFinish
    rw [hd]
    simp only [Bool.false_eq_true, if_false]
    exact ⟨_, _, _, _, rfl⟩
  · have hreg : ∀ n ∈ List.replicate sh.length (upsRegionSize cfg.upsample_factor), 0 < n := by
      intro n hmem
      rw [List.eq_of_mem_replicate hmem]
      exact upsRegionSize_pos _ hu0
    obtain ⟨mx2, hmx2⟩ := argmaxList_isSome
      (fun k => Complex.abs ((starRingEnd ℂ)
        (upsCore cfg.upsample_factor sh
          (List.replicate sh.length (upsRegionSize cfg.upsample_factor))
          ((List.range sh.length).map fun d =>
            ((upsDftshift cfg.upsample_factor : ℤ) : ℝ) -
              (((roundEven (wrapShift (idxNthD mx d) (sh.getD d 1) *
                (cfg.upsample_factor : ℝ)) : ℤ) : ℝ) / (cfg.upsample_factor : ℝ)) *
                (cfg.upsample_factor : ℝ))
          (fun i => (starRingEnd ℂ) (ip i)) k)))
      _ (enumIdx_ne_nil _ hreg)
    rw [pcc_ups_eq sh ref mov cfg eps hm1 hm2 sf tf hfp ip hnp mx hmx hu _ rfl _ rfl _ rfl _ rfl
      mx2 hmx2]
    unfold pccFinish
    rw [hd]
    simp only [Bool.false_eq_true, if_false]
    exact ⟨_, _, _, _, rfl⟩

/-! ## Claims -/

/-- Claim C9: for every unmasked call to `phase_cross_correlation`, the
returned triple — and even the trace of numeric operations — is identical for
any two values of `overlap_ratio`: the parameter is never consulted.  (The
theorem is stated for *all* calls, masked or not, which is stronger.) -/
theorem claim9_overlap_independent (sh : List ℕ) (ref mov : Idx sh → ℂ)
    (u : ℕ) (space : String) (dis mr mm : Bool) (norm : Option String) (o₁ o₂ eps : ℝ)
    (sh₁ sh₂ : List ℕ) :
    phase_cross_correlation sh ref mov ⟨u, space, dis, mr, mm, o₁, norm⟩ eps =
      phase_cross_correlation sh ref mov ⟨u, space, dis, mr, mm, o₂, norm⟩ eps ∧
    pccEvents ⟨u, space, dis, mr, mm, o₁, norm⟩ sh₁ sh₂ =
      pccEvents ⟨u, space, dis, mr, mm, o₂, norm⟩ sh₁ sh₂ :=
  ⟨rfl, rfl⟩

/-- Claim C10: a non-None mask raises the not-implemented error before every
other validation: even with mismatched shapes, an invalid `space`, or an
invalid `normalization`, the masked call produces exactly the mask error and
performs no numeric work. -/
theorem claim10_mask_short_circuits (cfg : PccConfig)
    (h : cfg.hasRefMask = true ∨ cfg.hasMovMask = true)
    (sh₁ sh₂ sh : List ℕ) (ref mov : Idx sh → ℂ) (eps : ℝ) :
    pccEvents cfg sh₁ sh₂ =
      ([], some (.notImplemented "Masked phase cross-correlation is not implemented.")) ∧
    phase_cross_correlation sh ref mov cfg eps =
      .error (.notImplemented "Masked phase cross-correlation is not implemented.") := by
  constructor
  · unfold pccEvents
    rcases h with h | h <;> simp [h]
  · exact pcc_masked sh ref mov cfg eps h

/-- Witness for C10: a reference mask together with mismatched shapes, an
invalid `space` and an invalid `normalization` still yields exactly the
masked-registration error. -/
theorem claim10_witness :
    pccEvents ⟨1, "frank", false, true, false, 0, some "nonexisting"⟩ [2] [3, 4] =
      ([], some (.notImplemented "Masked phase cross-correlation is not implemented.")) ∧
    phase_cross_correlation [2] (fun _ => (0 : ℂ)) (fun _ => (0 : ℂ))
      ⟨1, "frank", false, true, false, 0, some "nonexisting"⟩ 0 =
      .error (.notImplemented "Masked phase cross-correlation is not implemented.") :=
  claim10_mask_short_circuits _ (Or.inl rfl) [2] [3, 4] [2] (fun _ => 0) (fun _ => 0) 0

theorem pccEvents_norm_error (cfg : PccConfig) (sh₁ sh₂ : List ℕ) (s : String)
    (hm1 : cfg.hasRefMask = false) (hm2 : cfg.hasMovMask = false)
    (h12 : sh₁ = sh₂)
    (hs : strLower cfg.space = "fourier" ∨ strLower cfg.space = "real")
    (hn : cfg.normalization = some s) (hs' : s ≠ "phase") :
    (pccEvents cfg sh₁ sh₂).2 =
      some (.valueError "normalization must be either phase or None") := by
  unfold pccEvents
  simp [hm1, hm2, h12, hs, hn, hs']

theorem pccEvents_disambiguate_error (cfg : PccConfig) (sh₁ sh₂ : List ℕ)
    (hm1 : cfg.hasRefMask = false) (hm2 : cfg.hasMovMask = false)
    (h12 : sh₁ = sh₂)
    (hs : strLower cfg.space = "fourier" ∨ strLower cfg.space = "real")
    (hn : cfg.normalization = none ∨ cfg.normalization = some "phase")
    (hd : cfg.disambiguate = true)
    (hsh : ∀ n ∈ sh₁, 0 < n) (hu0 : cfg.upsample_factor ≠ 0) :
    (pccEvents cfg sh₁ sh₂).2 =
      some (.notImplemented "disambiguation is not yet supported") := by
  have h0 : ¬ (0 ∈ sh₂) := by
    rw [← h12]
    intro hmem
    exact absurd (hsh 0 hmem) (lt_irrefl 0)
  unfold pccEvents pccEventsRest pccEventsTail
  by_cases hu : cfg.upsample_factor = 1 <;>
    rcases hn with hn | hn <;>
      simp [hm1, hm2, h12, hs, hn, hd, h0, hu, hu0]

theorem pccEvents_space_error (cfg : PccConfig) (sh₁ sh₂ : List ℕ)
    (hm1 : cfg.hasRefMask = false) (hm2 : cfg.hasMovMask = false)
    (h12 : sh₁ = sh₂)
    (hs : ¬(strLower cfg.space = "fourier" ∨ strLower cfg.space = "real")) :
    pccEvents cfg sh₁ sh₂ =
      ([], some (.valueError "space argument must be \"real\" or \"fourier\"")) := by
  unfold pccEvents
  simp [hm1, hm2, h12, hs]

/-- Claim C1 (amended): the mask, shape-mismatch and `space` errors are raised
before any numeric work (empty event trace); the `normalization` and
`disambiguate` errors are raised only *after* numeric work has begun (the
forward DFTs and the spectrum product precede the normalization check, the
whole correlation precedes the disambiguate check — see
`claim1_counterexample`), but in every invalid configuration an error is
raised and no partial result is returned. -/
theorem claim1_validation_order (cfg : PccConfig) (sh₁ sh₂ sh : List ℕ)
    (ref mov : Idx sh → ℂ) (eps : ℝ) :
    (cfg.hasRefMask = true ∨ cfg.hasMovMask = true →
      pccEvents cfg sh₁ sh₂ =
        ([], some (.notImplemented "Masked phase cross-correlation is not implemented."))) ∧
    (cfg.hasRefMask = false → cfg.hasMovMask = false → sh₁ ≠ sh₂ →
      pccEvents cfg sh₁ sh₂ = ([], some (.valueError "images must be same shape"))) ∧
    (cfg.hasRefMask = false → cfg.hasMovMask = false → sh₁ = sh₂ →
      ¬(strLower cfg.space = "fourier" ∨ strLower cfg.space = "real") →
      pccEvents cfg sh₁ sh₂ =
        ([], some (.valueError "space argument must be \"real\" or \"fourier\""))) ∧
    (∀ s : String, cfg.hasRefMask = false → cfg.hasMovMask = false → sh₁ = sh₂ →
      (strLower cfg.space = "fourier" ∨ strLower cfg.space = "real") →
      cfg.normalization = some s → s ≠ "phase" →
      (pccEvents cfg sh₁ sh₂).2 =
        some (.valueError "normalization must be either phase or None") ∧
      phase_cross_correlation sh ref mov cfg eps =
        .error (.valueError "normalization must be either phase or None")) ∧
    (cfg.hasRefMask = false → cfg.hasMovMask = false → sh₁ = sh₂ →
      (strLower cfg.space = "fourier" ∨ strLower cfg.space = "real") →
      (cfg.normalization = none ∨ cfg.normalization = some "phase") →
      cfg.disambiguate = true → (∀ n ∈ sh₁, 0 < n) → (∀ n ∈ sh, 0 < n) →
      cfg.upsample_factor ≠ 0 →
      (pccEvents cfg sh₁ sh₂).2 =
        some (.notImplemented "disambiguation is not yet supported") ∧
      phase_cross_correlation sh ref mov cfg eps =
        .error (.notImplemented "disambiguation is not yet supported")) := by
  refine ⟨?_, ?_, ?_, ?_, ?_⟩
  · intro h
    unfold pccEvents
    rcases h with h | h <;> simp [h]
  · intro hm1 hm2 h12
    unfold pccEvents
    simp [hm1, hm2, h12]
  · exact fun hm1 hm2 h12 hs => pccEvents_space_error cfg sh₁ sh₂ hm1 hm2 h12 hs
  · intro s hm1 hm2 h12 hs hn hs'
    exact ⟨pccEvents_norm_error cfg sh₁ sh₂ s hm1 hm2 h12 hs hn hs',
      pcc_norm_error sh ref mov cfg eps hm1 hm2 hs s hn hs'⟩
  · intro hm1 hm2 h12 hs hn hd hsh₁ hsh hu0
    exact ⟨pccEvents_disambiguate_error cfg sh₁ sh₂ hm1 hm2 h12 hs hn hd hsh₁ hu0,
      pcc_disambiguate_error sh ref mov cfg eps hm1 hm2 hs hn hd hsh hu0⟩

/-- Witness for C1: instances of each conjunct of
`claim1_validation_order` at concrete configurations. -/
theorem claim1_witness :
    pccEvents ⟨1, "real", false, true, false, 0, some "phase"⟩ [1] [1] =
      ([], some (.notImplemented "Masked phase cross-correlation is not implemented.")) ∧
    pccEvents ⟨1, "real", false, false, false, 0, some "phase"⟩ [1] [2] =
      ([], some (.valueError "images must be same shape")) ∧
    pccEvents ⟨1, "frank", false, false, false, 0, some "phase"⟩ [1] [1] =
      ([], some (.valueError "space argument must be \"real\" or \"fourier\"")) ∧
    (pccEvents ⟨1, "real", false, false, false, 0, some "nonexisting"⟩ [1] [1]).2 =
      some (.valueError "normalization must be either phase or None") ∧
    (pccEvents ⟨1, "real", true, false, false, 0, some "phase"⟩ [1] [1]).2 =
      some (.notImplemented "disambiguation is not yet supported") :=
  ⟨(claim1_validation_order ⟨1, "real", false, true, false, 0, some "phase"⟩ [1] [1] [1]
      (fun _ => 0) (fun _ => 0) 0).1 (Or.inl rfl),
   (claim1_validation_order ⟨1, "real", false, false, false, 0, some "phase"⟩ [1] [2] [1]
      (fun _ => 0) (fun _ => 0) 0).2.1 rfl rfl (by decide),
   (claim1_validation_order ⟨1, "frank", false, false, false, 0, some "phase"⟩ [1] [1] [1]
      (fun _ => 0) (fun _ => 0) 0).2.2.1 rfl rfl rfl (by decide),
   ((claim1_validation_order ⟨1, "real", false, false, false, 0, some "nonexisting"⟩ [1] [1] [1]
      (fun _ => 0) (fun _ => 0) 0).2.2.2.1 "nonexisting" rfl rfl rfl (by decide) rfl
      (by decide)).1,
   ((claim1_validation_order ⟨1, "real", true, false, false, 0, some "phase"⟩ [1] [1] [1]
      (fun _ => 0) (fun _ => 0) 0).2.2.2.2 rfl rfl rfl (by decide) (Or.inr rfl) rfl
      (by decide) (by decide) (by decide)).1⟩

/-- Counterexample to C1 as stated: with `disambiguate=True` (an invalid
static configuration) and otherwise valid arguments, the numeric trace before
the error is *not* empty — two forward DFTs, the spectrum product, the
normalization, the inverse DFT and the argmax all run before the
`NotImplementedError` fires; the same holds for an unrecognized
`normalization`, whose error fires only after the forward DFTs and the
elementwise spectrum product. -/
theorem claim1_counterexample :
    (pccEvents ⟨1, "real", true, false, false, 0, some "phase"⟩ [1] [1]).2 =
      some (.notImplemented "disambiguation is not yet supported") ∧
    (pccEvents ⟨1, "real", true, false, false, 0, some "phase"⟩ [1] [1]).1 ≠ [] ∧
    (pccEvents ⟨1, "real", false, false, false, 0, some "nonexisting"⟩ [1] [1]).2 =
      some (.valueError "normalization must be either phase or None") ∧
    (pccEvents ⟨1, "real", false, false, false, 0, some "nonexisting"⟩ [1] [1]).1 =
      [.dft, .dft, .elemwise] := by
  refine ⟨by decide, by decide, by decide, by decide⟩

/-- Claim C6: `phase_cross_correlation` raises `ValueError` for a `space`
outside {"real", "fourier"} (case-insensitively) and for a `normalization`
other than `"phase"`/None; it raises `NotImplementedError` (a distinct error
kind) for any present mask and for `disambiguate=True`; and `_upsampled_dft`
raises `ValueError` when the region-size or axis-offsets sequence length
differs from the data's dimensionality. -/
theorem claim6_error_taxonomy (cfg : PccConfig) (sh : List ℕ) (ref mov : Idx sh → ℂ)
    (eps : ℝ) (ndim : ℕ) (l : List ℕ) (o : List ℝ) (k : ℕ) :
    (cfg.hasRefMask = false → cfg.hasMovMask = false →
      ¬(strLower cfg.space = "fourier" ∨ strLower cfg.space = "real") →
      phase_cross_correlation sh ref mov cfg eps =
        .error (.valueError "space argument must be \"real\" or \"fourier\"")) ∧
    (∀ s : String, cfg.hasRefMask = false → cfg.hasMovMask = false →
      (strLower cfg.space = "fourier" ∨ strLower cfg.space = "real") →
      cfg.normalization = some s → s ≠ "phase" →
      phase_cross_correlation sh ref mov cfg eps =
        .error (.valueError "normalization must be either phase or None")) ∧
    (cfg.hasRefMask = true ∨ cfg.hasMovMask = true →
      phase_cross_correlation sh ref mov cfg eps =
        .error (.notImplemented "Masked phase cross-correlation is not implemented.")) ∧
    (cfg.hasRefMask = false → cfg.hasMovMask = false →
      (strLower cfg.space = "fourier" ∨ strLower cfg.space = "real") →
      (cfg.normalization = none ∨ cfg.normalization = some "phase") →
      cfg.disambiguate = true → (∀ n ∈ sh, 0 < n) → cfg.upsample_factor ≠ 0 →
      phase_cross_correlation sh ref mov cfg eps =
        .error (.notImplemented "disambiguation is not yet supported")) ∧
    (l.length ≠ ndim → ∀ ao, upsValidate ndim (.seq l) ao = .error (.valueError
      "shape of upsampled region sizes must be equal to input data's number of dimensions.")) ∧
    (o.length ≠ ndim → upsValidate ndim (.scalar k) (some o) = .error (.valueError
      "number of axis offsets must be equal to input data's number of dimensions.")) ∧
    (∀ s t : String, PccErr.notImplemented s ≠ PccErr.valueError t) := by
  refine ⟨?_, ?_, ?_, ?_, ?_, ?_, ?_⟩
  · exact fun hm1 hm2 hs => pcc_space_error sh ref mov cfg eps hm1 hm2 hs
  · exact fun s hm1 hm2 hs hn hs' => pcc_norm_error sh ref mov cfg eps hm1 hm2 hs s hn hs'
  · exact fun h => pcc_masked sh ref mov cfg eps h
  · exact fun hm1 hm2 hs hn hd hsh hu0 =>
      pcc_disambiguate_error sh ref mov cfg eps hm1 hm2 hs hn hd hsh hu0
  · intro h ao
    unfold upsValidate
    simp only [if_pos h]
  · intro h
    unfold upsValidate upsValidateOff
    simp only [if_pos h]
  · intro s t h
    exact PccErr.noConfusion h

/-- Witness for C6: each rejection at a concrete invalid input. -/
theorem claim6_witness :
    phase_cross_correlation [1] (fun _ => (0 : ℂ)) (fun _ => (0 : ℂ))
      ⟨1, "frank", false, false, false, 0, some "phase"⟩ 0 =
      .error (.valueError "space argument must be \"real\" or \"fourier\"") ∧
    phase_cross_correlation [1] (fun _ => (0 : ℂ)) (fun _ => (0 : ℂ))
      ⟨1, "real", false, false, false, 0, some "nonexisting"⟩ 0 =
      .error (.valueError "normalization must be either phase or None") ∧
    phase_cross_correlation [1] (fun _ => (0 : ℂ)) (fun _ => (0 : ℂ))
      ⟨1, "real", false, false, true, 0, some "phase"⟩ 0 =
      .error (.notImplemented "Masked phase cross-correlation is not implemented.") ∧
    phase_cross_correlation [1] (fun _ => (0 : ℂ)) (fun _ => (0 : ℂ))
      ⟨2, "real", true, false, false, 0, some "phase"⟩ 0 =
      .error (.notImplemented "disambiguation is not yet supported") ∧
    upsValidate 2 (.seq [3]) none = .error (.valueError
      "shape of upsampled region sizes must be equal to input data's number of dimensions.") ∧
    upsValidate 2 (.scalar 3) (some [0]) = .error (.valueError
      "number of axis offsets must be equal to input data's number of dimensions.") :=
  ⟨(claim6_error_taxonomy ⟨1, "frank", false, false, false, 0, some "phase"⟩ [1]
      (fun _ => 0) (fun _ => 0) 0 0 [] [] 0).1 rfl rfl (by decide),
   (claim6_error_taxonomy ⟨1, "real", false, false, false, 0, some "nonexisting"⟩ [1]
      (fun _ => 0) (fun _ => 0) 0 0 [] [] 0).2.1 "nonexisting" rfl rfl (by decide) rfl
      (by decide),
   (claim6_error_taxonomy ⟨1, "real", false, false, true, 0, some "phase"⟩ [1]
      (fun _ => 0) (fun _ => 0) 0 0 [] [] 0).2.2.1 (Or.inr rfl),
   (claim6_error_taxonomy ⟨2, "real", true, false, false, 0, some "phase"⟩ [1]
      (fun _ => 0) (fun _ => 0) 0 0 [] [] 0).2.2.2.1 rfl rfl (by decide) (Or.inr rfl) rfl
      (by decide) (by decide),
   (claim6_error_taxonomy ⟨1, "real", false, false, false, 0, some "phase"⟩ [1]
      (fun _ => 0) (fun _ => 0) 0 2 [3] [] 0).2.2.2.2.1 (by decide) none,
   (claim6_error_taxonomy ⟨1, "real", false, false, false, 0, some "phase"⟩ [1]
      (fun _ => 0) (fun _ => 0) 0 2 [] [0] 3).2.2.2.2.2.1 (by decide)⟩

/-- Claim C5: `_compute_error` returns NaN (modelled `none`) exactly when the
amplitude product is zero — without raising — and otherwise returns
`sqrt(|1 - CCmax·conj(CCmax)/amp|)`, which is non-negative (and, being a real
number, finite); and `phase_cross_correlation` itself never raises on a valid
configuration, whatever the data values (so a degenerate all-zero input
propagates the NaN rather than throwing). -/
theorem claim5_error_nan (c : ℂ) (sA tA : ℝ) (sh : List ℕ) (ref mov : Idx sh → ℂ)
    (cfg : PccConfig) (eps : ℝ)
    (hm1 : cfg.hasRefMask = false) (hm2 : cfg.hasMovMask = false)
    (hs : strLower cfg.space = "fourier" ∨ strLower cfg.space = "real")
    (hn : cfg.normalization = none ∨ cfg.normalization = some "phase")
    (hd : cfg.disambiguate = false)
    (hsh : ∀ n ∈ sh, 0 < n) (hu0 : cfg.upsample_factor ≠ 0) :
    computeError c sA tA =
      (if sA * tA = 0 then none
       else some (Real.sqrt (Complex.abs
         (1 - c * (starRingEnd ℂ) c / ((sA * tA : ℝ) : ℂ))))) ∧
    0 ≤ (computeError c sA tA).getD 0 ∧
    (phase_cross_correlation sh ref mov cfg eps).toOption.isSome = true := by
  refine ⟨rfl, ?_, ?_⟩
  · unfold computeError
    by_cases h : sA * tA = 0
    · rw [if_pos h]
      exact le_refl 0
    · rw [if_neg h]
      exact Real.sqrt_nonneg _
  · obtain ⟨shiftPre, ccMax, sAmp, tAmp, heq⟩ :=
      pcc_ok_form sh ref mov cfg eps hm1 hm2 hs hn hd hsh hu0
    rw [heq]
    rfl

/-- Witness for C5: a degenerate all-zero one-pixel input on a valid
configuration: the error is NaN (`none`) and the call still succeeds. -/
theorem claim5_witness :
    computeError 1 0 0 =
      (if (0 : ℝ) * 0 = 0 then none
       else some (Real.sqrt (Complex.abs
         (1 - 1 * (starRingEnd ℂ) 1 / (((0 : ℝ) * 0 : ℝ) : ℂ))))) ∧
    0 ≤ (computeError 1 0 0).getD 0 ∧
    (phase_cross_correlation [1] (fun _ => (0 : ℂ)) (fun _ => (0 : ℂ))
      ⟨1, "fourier", false, false, false, 0, none⟩ 0).toOption.isSome = true :=
  claim5_error_nan 1 0 0 [1] (fun _ => 0) (fun _ => 0)
    ⟨1, "fourier", false, false, false, 0, none⟩ 0 rfl rfl (Or.inl (by decide))
    (Or.inl rfl) rfl (by decide) (by decide)

/-- Claim C7: on every valid call (either branch, any `upsample_factor ≥ 1`,
any data), the returned shift component on an axis of size 1 is exactly 0 —
the `where(shape == 1, 0, shift)` step of line 280 runs in both branches. -/
theorem claim7_singleton_axis (sh : List ℕ) (ref mov : Idx sh → ℂ)
    (cfg : PccConfig) (eps : ℝ)
    (hm1 : cfg.hasRefMask = false) (hm2 : cfg.hasMovMask = false)
    (hs : strLower cfg.space = "fourier" ∨ strLower cfg.space = "real")
    (hn : cfg.normalization = none ∨ cfg.normalization = some "phase")
    (hd : cfg.disambiguate = false)
    (hsh : ∀ n ∈ sh, 0 < n) (hu0 : cfg.upsample_factor ≠ 0) :
    (phase_cross_correlation sh ref mov cfg eps).toOption.isSome = true ∧
    ∀ d : ℕ, sh.getD d 1 = 1 →
      shiftAt (phase_cross_correlation sh ref mov cfg eps) d = .ok 0 := by
  obtain ⟨shiftPre, ccMax, sAmp, tAmp, heq⟩ :=
    pcc_ok_form sh ref mov cfg eps hm1 hm2 hs hn hd hsh hu0
  rw [heq]
  refine ⟨rfl, ?_⟩
  intro d h1
  unfold shiftAt
  show Except.ok (if sh.getD d 1 = 1 then 0 else shiftPre d) = Except.ok 0
  rw [if_pos h1]

/-- Witness for C7: a 1×2 image on the upsampled branch (`upsample_factor=3`):
the first axis has size 1 and its returned shift component is 0. -/
theorem claim7_witness :
    (phase_cross_correlation [1, 2] (fun _ => (0 : ℂ)) (fun _ => (0 : ℂ))
      ⟨3, "fourier", false, false, false, 0, none⟩ 0).toOption.isSome = true ∧
    shiftAt (phase_cross_correlation [1, 2] (fun _ => (0 : ℂ)) (fun _ => (0 : ℂ))
      ⟨3, "fourier", false, false, false, 0, none⟩ 0) 0 = .ok 0 :=
  ⟨(claim7_singleton_axis [1, 2] (fun _ => 0) (fun _ => 0)
      ⟨3, "fourier", false, false, false, 0, none⟩ 0 rfl rfl (Or.inl (by decide))
      (Or.inl rfl) rfl (by decide) (by decide)).1,
   (claim7_singleton_axis [1, 2] (fun _ => 0) (fun _ => 0)
      ⟨3, "fourier", false, false, false, 0, none⟩ 0 rfl rfl (Or.inl (by decide))
      (Or.inl rfl) rfl (by decide) (by decide)).2 0 rfl⟩

theorem upsCore_eq_kernProd (u : ℕ) : ∀ (sh region : List ℕ) (off : List ℝ)
    (data : Idx sh → ℂ) (k : Idx region), region.length = sh.length →
    upsCore u sh region off data k = ∑ m : Idx sh, kernProd u sh region off k m * data m
  | [], [], off, data, k, _ => by
    simp [upsCore, kernProd, Fintype.sum_unique]
  | [], _ :: _, _, _, _, h => by simp at h
  | _ :: _, [], _, _, _, h => by simp at h
  | n :: ns, r :: rs, off, data, k, h => by
    have hlen : rs.length = ns.length := by simpa using h
    show (∑ m : Fin n, dftKernel u n (off.headD 0) (k.1 : ℕ) m *
        upsCore u ns rs off.tail (fun i => data (m, i)) k.2) = _
    have step : ∀ m : Fin n,
        dftKernel u n (off.headD 0) (k.1 : ℕ) m *
          upsCore u ns rs off.tail (fun i => data (m, i)) k.2 =
        ∑ ms : Idx ns, dftKernel u n (off.headD 0) (k.1 : ℕ) m *
          (kernProd u ns rs off.tail k.2 ms * data (m, ms)) := by
      intro m
      rw [upsCore_eq_kernProd u ns rs off.tail (fun i => data (m, i)) k.2 hlen,
        Finset.mul_sum]
    rw [Finset.sum_congr rfl fun m _ => step m]
    rw [← Fintype.sum_prod_type' (fun (m : Fin n) (ms : Idx ns) =>
      dftKernel u n (off.headD 0) (k.1 : ℕ) m * (kernProd u ns rs off.tail k.2 ms * data (m, ms)))]
    exact Finset.sum_congr rfl fun p _ => by
      show dftKernel u n (off.headD 0) (k.1 : ℕ) p.1 *
        (kernProd u ns rs off.tail k.2 p.2 * data (p.1, p.2)) =
        kernProd u (n :: ns) (r :: rs) off k p * data p
      rw [kernProd]
      ring

/-- Claim C8: on every valid call (sequence lengths matching the data's
dimensionality, so validation succeeds), `_upsampled_dft` returns the array of
shape `region_size` (the index type of the result) whose entry at `k` is the
contraction of `data` along each axis — processed from last to first by the
`tensordot` loop — against the kernel matrices with entries
`exp(-2πi (k_d - axis_offsets[d]) · freq(m_d, shape[d], upsample_factor))`
(`kernProd` is exactly the product of those entries; the dtype cast is a no-op
in the exact model). -/
theorem claim8_kernel_contraction (u : ℕ) (sh region : List ℕ) (off : List ℝ)
    (data : Idx sh → ℂ) (k : Idx region)
    (hr : region.length = sh.length) (ho : off.length = sh.length) :
    upsValidate sh.length (.seq region) (some off) = .ok (region, off) ∧
    upsCore u sh region off data k = ∑ m : Idx sh, kernProd u sh region off k m * data m := by
  constructor
  · unfold upsValidate upsValidateOff
    simp [hr, ho]
  · exact upsCore_eq_kernProd u sh region off data k hr

/-- Witness for C8 at a concrete one-dimensional call. -/
theorem claim8_witness :
    upsValidate ([2] : List ℕ).length (.seq [3]) (some [0]) = .ok ([3], [0]) ∧
    upsCore 2 [2] [3] [0] (fun _ => (1 : ℂ)) ((0 : Fin 3), ()) =
      ∑ m : Idx [2], kernProd 2 [2] [3] [0] ((0 : Fin 3), ()) m * (1 : ℂ) :=
  claim8_kernel_contraction 2 [2] [3] [0] (fun _ => 1) ((0 : Fin 3), ()) rfl rfl

theorem round_integer_estimate (m n u : ℕ) (hu : u ≠ 0) :
    ((roundEven (wrapShift m n * (u : ℝ)) : ℤ) : ℝ) / (u : ℝ) = wrapSpec m n := by
  rw [wrapShift_eq_wrapSpec, wrapSpec_eq_wrapInt]
  rw [show ((wrapInt m n : ℤ) : ℝ) * (u : ℝ) = ((wrapInt m n * (u : ℕ) : ℤ) : ℝ) by push_cast; ring]
  rw [roundEven_intCast]
  have hu' : (u : ℝ) ≠ 0 := Nat.cast_ne_zero.mpr hu
  push_cast
  field_simp

/-- Claim C4: in the upsampled branch (`upsample_factor ≥ 2`),
`phase_cross_correlation` uses `upsampled_region_size = ceil(1.5·u) = (3u+1)/2`,
`dftshift = floor(upsampled_region_size/2)`, per-axis
`sample_region_offset = dftshift - shift·u` (where the "rounding to the
nearest multiple of 1/u" of the integer estimate is provably the identity),
and returns `shift = integer estimate + (patch argmax - dftshift)/u` with
*unnormalized* amplitude sums in the error; in the `upsample_factor = 1`
branch the amplitudes are means (sums divided by the element count). -/
theorem claim4_subpixel_refinement (sh : List ℕ) (ref mov : Idx sh → ℂ) (cfg : PccConfig) (eps : ℝ)
    (hm1 : cfg.hasRefMask = false) (hm2 : cfg.hasMovMask = false)
    (hs : strLower cfg.space = "fourier" ∨ strLower cfg.space = "real")
    (hn : cfg.normalization = none ∨ cfg.normalization = some "phase")
    (hd : cfg.disambiguate = false)
    (hsh : ∀ n ∈ sh, 0 < n) :
    (2 ≤ cfg.upsample_factor →
      upsRegionSize cfg.upsample_factor = (3 * cfg.upsample_factor + 1) / 2 ∧
      upsDftshift cfg.upsample_factor = (((3 * cfg.upsample_factor + 1) / 2) / 2 : ℕ) ∧
      (∀ m n : ℕ, ((roundEven (wrapShift m n * (cfg.upsample_factor : ℝ)) : ℤ) : ℝ) /
        (cfg.upsample_factor : ℝ) = wrapSpec m n) ∧
      ∃ (sf tf ip : Idx sh → ℂ) (mx : Idx sh)
        (patch : Idx (List.replicate sh.length (upsRegionSize cfg.upsample_factor)) → ℂ)
        (mx2 : Idx (List.replicate sh.length (upsRegionSize cfg.upsample_factor))),
        freqPair sh ref mov cfg.space = .ok (sf, tf) ∧
        normalizeProduct sh cfg.normalization eps
          (fun i => sf i * (starRingEnd ℂ) (tf i)) = .ok ip ∧
        argmaxList (fun i => Complex.abs (ifftnRec sh ip i)) (enumIdx sh) = some mx ∧
        patch = (fun k => (starRingEnd ℂ)
          (upsCore cfg.upsample_factor sh
            (List.replicate sh.length (upsRegionSize cfg.upsample_factor))
            ((List.range sh.length).map fun d =>
              ((upsDftshift cfg.upsample_factor : ℤ) : ℝ) -
                wrapSpec (idxNthD mx d) (sh.getD d 1) * (cfg.upsample_factor : ℝ))
            (fun i => (starRingEnd ℂ) (ip i)) k)) ∧
        argmaxList (fun k => Complex.abs (patch k))
          (enumIdx (List.replicate sh.length (upsRegionSize cfg.upsample_factor))) = some mx2 ∧
        phase_cross_correlation sh ref mov cfg eps = .ok
          ⟨fun d => if sh.getD d 1 = 1 then 0 else
              wrapSpec (idxNthD mx d) (sh.getD d 1) +
                (((idxNthD mx2 d : ℕ) : ℝ) - ((upsDftshift cfg.upsample_factor : ℤ) : ℝ)) /
                  (cfg.upsample_factor : ℝ),
            computeError (patch mx2)
              (∑ i : Idx sh, (sf i * (starRingEnd ℂ) (sf i)).re)
              (∑ i : Idx sh, (tf i * (starRingEnd ℂ) (tf i)).re),
            computePhasediff (patch mx2)⟩) ∧
    (cfg.upsample_factor = 1 →
      ∃ (sf tf ip : Idx sh → ℂ) (mx : Idx sh),
        freqPair sh ref mov cfg.space = .ok (sf, tf) ∧
        normalizeProduct sh cfg.normalization eps
          (fun i => sf i * (starRingEnd ℂ) (tf i)) = .ok ip ∧
        argmaxList (fun i => Complex.abs (ifftnRec sh ip i)) (enumIdx sh) = some mx ∧
        phase_cross_correlation sh ref mov cfg eps = .ok
          ⟨fun d => if sh.getD d 1 = 1 then 0 else wrapSpec (idxNthD mx d) (sh.getD d 1),
            computeError (ifftnRec sh ip mx)
              ((∑ i : Idx sh, (sf i * (starRingEnd ℂ) (sf i)).re) / (arraySize sh : ℝ))
              ((∑ i : Idx sh, (tf i * (starRingEnd ℂ) (tf i)).re) / (arraySize sh : ℝ)),
            computePhasediff (ifftnRec sh ip mx)⟩) := by
  obtain ⟨sf, tf, hfp⟩ := freqPair_ok sh ref mov cfg.space hs
  obtain ⟨ip, hnp⟩ := normalizeProduct_ok sh cfg.normalization eps
    (fun i => sf i * (starRingEnd ℂ) (tf i)) hn
  obtain ⟨mx, hmx⟩ := argmaxList_isSome (fun i => Complex.abs (ifftnRec sh ip i)) _
    (enumIdx_ne_nil sh hsh)
  constructor
  · intro hu2
    have hu0 : cfg.upsample_factor ≠ 0 := by omega
    have hu1 : ¬cfg.upsample_factor = 1 := by omega
    refine ⟨upsRegionSize_eq _, ?_, fun m n => round_integer_estimate m n _ hu0, ?_⟩
    · rw [upsDftshift_eq, upsRegionSize_eq]
    · have hreg : ∀ n ∈ List.replicate sh.length (upsRegionSize cfg.upsample_factor), 0 < n := by
        intro n hmem
        rw [List.eq_of_mem_replicate hmem]
        exact upsRegionSize_pos _ hu0
      obtain ⟨mx2, hmx2⟩ := argmaxList_isSome
        (fun k => Complex.abs ((starRingEnd ℂ)
          (upsCore cfg.upsample_factor sh
            (List.replicate sh.length (upsRegionSize cfg.upsample_factor))
            ((List.range sh.length).map fun d =>
              ((upsDftshift cfg.upsample_factor : ℤ) : ℝ) -
                wrapSpec (idxNthD mx d) (sh.getD d 1) * (cfg.upsample_factor : ℝ))
            (fun i => (starRingEnd ℂ) (ip i)) k)))
        _ (enumIdx_ne_nil _ hreg)
      refine ⟨sf, tf, ip, mx, _, mx2, hfp, hnp, hmx, rfl, hmx2, ?_⟩
      rw [pcc_ups_eq sh ref mov cfg eps hm1 hm2 sf tf hfp ip hnp mx hmx hu1 _ rfl
        (fun d => wrapSpec (idxNthD mx d) (sh.getD d 1))
        (by
          funext d
          rw [round_integer_estimate _ _ _ hu0])
        _ rfl _ rfl mx2 hmx2]
      unfold pccFinish
      rw [hd]
      simp only [Bool.false_eq_true, if_false]
  · intro hu1
    refine ⟨sf, tf, ip, mx, hfp, hnp, hmx, ?_⟩
    rw [pcc_u1_eq sh ref mov cfg eps hm1 hm2 sf tf hfp ip hnp mx hmx hu1]
    unfold pccFinish
    rw [hd]
    simp only [Bool.false_eq_true, if_false, wrapShift_eq_wrapSpec]

/-- Witness for C4: the concrete geometry at `upsample_factor = 2`. -/
theorem claim4_witness :
    upsRegionSize 2 = 3 ∧ upsDftshift 2 = 1 ∧
    ((roundEven (wrapShift 1 2 * (2 : ℝ)) : ℤ) : ℝ) / (2 : ℝ) = wrapSpec 1 2 := by
  have h := (claim4_subpixel_refinement [1] (fun _ => 0) (fun _ => 0)
    ⟨2, "fourier", false, false, false, 0, none⟩ 0 rfl rfl (Or.inl (by decide))
    (Or.inl rfl) rfl (by decide)).1 (by decide)
  exact ⟨h.1, h.2.1, h.2.2.1 1 2⟩


theorem expI_eval (r : ℝ) :
    Complex.exp ((r : ℂ) * Complex.I) = (Real.cos r : ℂ) + (Real.sin r : ℂ) * Complex.I := by
  rw [Complex.exp_mul_I, ← Complex.ofReal_cos, ← Complex.ofReal_sin]

theorem exp_half_pi_I : Complex.exp (((Real.pi / 2 : ℝ) : ℂ) * Complex.I) = Complex.I := by
  rw [expI_eval]
  simp [Real.cos_pi_div_two, Real.sin_pi_div_two]

theorem abs_lt_abs_iff_normSq (z w : ℂ) :
    Complex.abs z < Complex.abs w ↔ Complex.normSq z < Complex.normSq w := by
  rw [← Complex.sq_abs, ← Complex.sq_abs]
  constructor
  · intro h
    exact pow_lt_pow_left₀ h (Complex.abs.nonneg z) (by norm_num)
  · intro h
    exact lt_of_pow_lt_pow_left₀ 2 (Complex.abs.nonneg w) h

theorem c3ip_eval0 : c3ip ((0 : Fin 2), ()) = 1 := by
  unfold c3ip c3ref c3mov
  norm_num

theorem c3ip_eval1 : c3ip ((1 : Fin 2), ()) = -1 - 2 * Complex.I := by
  unfold c3ip c3ref c3mov
  norm_num

theorem c3cc0 : ifftnRec [2] c3ip ((0 : Fin 2), ()) = -Complex.I := by
  show (∑ m : Fin 2,
      Complex.exp ((((2 : ℝ) * Real.pi * (((((0 : Fin 2) : ℕ) : ℝ) * ((m : ℕ) : ℝ)) / ((2:ℕ) : ℝ))) : ℝ) *
        Complex.I) * ifftnRec [] (fun i => c3ip (m, i)) ()) / ((2:ℕ) : ℂ) = -Complex.I
  rw [Fin.sum_univ_two]
  show (Complex.exp _ * c3ip ((0 : Fin 2), ()) + Complex.exp _ * c3ip ((1 : Fin 2), ())) / _ =
    -Complex.I
  rw [c3ip_eval0, c3ip_eval1]
  norm_num
  ring

theorem c3cc1 : ifftnRec [2] c3ip ((1 : Fin 2), ()) = 1 + Complex.I := by
  show (∑ m : Fin 2,
      Complex.exp ((((2 : ℝ) * Real.pi * (((((1 : Fin 2) : ℕ) : ℝ) * ((m : ℕ) : ℝ)) / ((2:ℕ) : ℝ))) : ℝ) *
        Complex.I) * ifftnRec [] (fun i => c3ip (m, i)) ()) / ((2:ℕ) : ℂ) = 1 + Complex.I
  rw [Fin.sum_univ_two]
  show (Complex.exp _ * c3ip ((0 : Fin 2), ()) + Complex.exp _ * c3ip ((1 : Fin 2), ())) / _ =
    1 + Complex.I
  rw [c3ip_eval0, c3ip_eval1]
  rw [show ((((2 : ℝ) * Real.pi * (((((1 : Fin 2) : ℕ) : ℝ) * ((((0 : Fin 2)) : ℕ) : ℝ)) / ((2:ℕ) : ℝ))) : ℝ) : ℂ) = 0 by
    push_cast; norm_num]
  rw [show ((((2 : ℝ) * Real.pi * (((((1 : Fin 2) : ℕ) : ℝ) * ((((1 : Fin 2)) : ℕ) : ℝ)) / ((2:ℕ) : ℝ))) : ℝ) : ℂ) = (Real.pi : ℂ) by
    push_cast; norm_num; ring]
  rw [Complex.exp_pi_mul_I]
  norm_num
  ring

theorem c3mx : argmaxList (fun i => Complex.abs (ifftnRec [2] c3ip i)) (enumIdx [2]) =
    some ((1 : Fin 2), ()) := by
  have henum : enumIdx [2] = [((0 : Fin 2), ()), ((1 : Fin 2), ())] := by decide
  rw [henum]
  unfold argmaxList
  simp only [List.foldl]
  have h : Complex.abs (ifftnRec [2] c3ip ((0 : Fin 2), ())) <
      Complex.abs (ifftnRec [2] c3ip ((1 : Fin 2), ())) := by
    rw [c3cc0, c3cc1, abs_lt_abs_iff_normSq]
    simp [Complex.normSq_apply]
  rw [if_pos h]

theorem c3Km0 (k : ℕ) : dftKernel 2 2 (-1) k (0 : Fin 2) = 1 := by
  unfold dftKernel
  have hf : fftfreqNum 2 (0 : Fin 2) = 0 := by decide
  rw [hf]
  norm_num

theorem c3K (k : ℕ) : dftKernel 2 2 (-1) k (1 : Fin 2) =
    Complex.exp (((((k : ℝ) + 1) * (Real.pi / 2) : ℝ) : ℂ) * Complex.I) := by
  unfold dftKernel
  congr 2
  have hf : fftfreqNum 2 (1 : Fin 2) = -1 := by decide
  rw [hf]
  push_cast
  ring

theorem c3K0 : dftKernel 2 2 (-1) 0 (1 : Fin 2) = Complex.I := by
  rw [c3K]
  rw [show ((((0:ℕ) : ℝ) + 1) * (Real.pi / 2) : ℝ) = Real.pi / 2 by norm_num]
  exact exp_half_pi_I

theorem c3K1 : dftKernel 2 2 (-1) 1 (1 : Fin 2) = -1 := by
  rw [c3K]
  rw [show ((((1:ℕ) : ℝ) + 1) * (Real.pi / 2) : ℝ) = Real.pi by push_cast; ring]
  exact Complex.exp_pi_mul_I

theorem c3K2 : dftKernel 2 2 (-1) 2 (1 : Fin 2) = -Complex.I := by
  rw [c3K]
  rw [show (((((2:ℕ) : ℝ) + 1) * (Real.pi / 2) : ℝ) : ℂ) * Complex.I =
      ((Real.pi : ℝ) : ℂ) * Complex.I + ((Real.pi / 2 : ℝ) : ℂ) * Complex.I by
    push_cast; ring]
  rw [Complex.exp_add, Complex.exp_pi_mul_I, exp_half_pi_I]
  ring

theorem c3patch_eval (k : Fin 3) :
    (starRingEnd ℂ) (upsCore 2 [2] [3] [(-1 : ℝ)] (fun i => (starRingEnd ℂ) (c3ip i)) (k, ())) =
      1 + (-1 - 2 * Complex.I) * (starRingEnd ℂ) (dftKernel 2 2 (-1) (k : ℕ) (1 : Fin 2)) := by
  show (starRingEnd ℂ) (∑ m : Fin 2,
      dftKernel 2 2 ([(-1 : ℝ)].headD 0) ((k : ℕ)) m *
        upsCore 2 [] [] ([(-1 : ℝ)].tail) (fun i => (starRingEnd ℂ) (c3ip (m, i))) ()) = _
  rw [Fin.sum_univ_two]
  show (starRingEnd ℂ)
      (dftKernel 2 2 (-1) (k : ℕ) 0 * (starRingEnd ℂ) (c3ip ((0 : Fin 2), ())) +
       dftKernel 2 2 (-1) (k : ℕ) 1 * (starRingEnd ℂ) (c3ip ((1 : Fin 2), ()))) = _
  rw [c3ip_eval0, c3ip_eval1, c3Km0]
  rw [map_add, map_mul, map_mul]
  rw [RingHom.map_one, Complex.conj_conj]
  rw [map_one]
  ring

theorem c3pv0 :
    (starRingEnd ℂ) (upsCore 2 [2] [3] [(-1 : ℝ)]
      (fun i => (starRingEnd ℂ) (c3ip i)) ((0 : Fin 3), ())) = -1 + Complex.I := by
  rw [c3patch_eval 0]
  rw [show (((0 : Fin 3) : ℕ)) = 0 from rfl, c3K0, Complex.conj_I]
  ring_nf
  rw [Complex.I_sq]
  ring

theorem c3pv1 :
    (starRingEnd ℂ) (upsCore 2 [2] [3] [(-1 : ℝ)]
      (fun i => (starRingEnd ℂ) (c3ip i)) ((1 : Fin 3), ())) = 2 + 2 * Complex.I := by
  rw [c3patch_eval 1]
  rw [show (((1 : Fin 3) : ℕ)) = 1 from rfl, c3K1]
  rw [show ((starRingEnd ℂ) (-1 : ℂ)) = -1 by simp]
  ring

theorem c3pv2 :
    (starRingEnd ℂ) (upsCore 2 [2] [3] [(-1 : ℝ)]
      (fun i => (starRingEnd ℂ) (c3ip i)) ((2 : Fin 3), ())) = 3 - Complex.I := by
  rw [c3patch_eval 2]
  rw [show (((2 : Fin 3) : ℕ)) = 2 from rfl, c3K2]
  rw [show ((starRingEnd ℂ) (-Complex.I)) = Complex.I by simp]
  ring_nf
  rw [Complex.I_sq]
  ring

theorem c3mx2 : argmaxList
    (fun k => Complex.abs ((fun k => (starRingEnd ℂ)
      (upsCore 2 [2] [3] [(-1 : ℝ)] (fun i => (starRingEnd ℂ) (c3ip i)) k)) k))
    (enumIdx [3]) = some ((2 : Fin 3), ()) := by
  have henum : enumIdx [3] =
      [((0 : Fin 3), ()), ((1 : Fin 3), ()), ((2 : Fin 3), ())] := by decide
  rw [henum]
  unfold argmaxList
  simp only [List.foldl]
  have h01 : Complex.abs ((starRingEnd ℂ)
      (upsCore 2 [2] [3] [(-1 : ℝ)] (fun i => (starRingEnd ℂ) (c3ip i)) ((0 : Fin 3), ()))) <
    Complex.abs ((starRingEnd ℂ)
      (upsCore 2 [2] [3] [(-1 : ℝ)] (fun i => (starRingEnd ℂ) (c3ip i)) ((1 : Fin 3), ()))) := by
    rw [c3pv0, c3pv1, abs_lt_abs_iff_normSq]
    simp [Complex.normSq_apply]
    norm_num
  rw [if_pos h01]
  have h12 : Complex.abs ((starRingEnd ℂ)
      (upsCore 2 [2] [3] [(-1 : ℝ)] (fun i => (starRingEnd ℂ) (c3ip i)) ((1 : Fin 3), ()))) <
    Complex.abs ((starRingEnd ℂ)
      (upsCore 2 [2] [3] [(-1 : ℝ)] (fun i => (starRingEnd ℂ) (c3ip i)) ((2 : Fin 3), ()))) := by
    rw [c3pv1, c3pv2, abs_lt_abs_iff_normSq]
    simp [Complex.normSq_apply]
    norm_num
  rw [if_pos h12]

theorem shiftAt_pccFinish (sh : List ℕ) (b : Bool) (hb : b = false) (shiftPre : ℕ → ℝ)
    (ccMax : ℂ) (sA tA : ℝ) (d : ℕ) :
    shiftAt (pccFinish sh b shiftPre ccMax sA tA) d =
      .ok (if sh.getD d 1 = 1 then 0 else shiftPre d) := by
  subst hb
  unfold pccFinish shiftAt
  rfl

theorem c3hfp : freqPair [2] c3ref c3mov "fourier" = .ok (c3ref, c3mov) := by
  unfold freqPair
  rw [if_pos (show strLower "fourier" = "fourier" by decide)]

theorem c3hs1 : (fun d => if d = 0 then (1 : ℝ) else 0) = fun d =>
    ((roundEven (wrapShift (@idxNthD [2] ((1 : Fin 2), ()) d) (([2] : List ℕ).getD d 1) *
      ((2 : ℕ) : ℝ)) : ℤ) : ℝ) / ((2 : ℕ) : ℝ) := by
  funext d
  cases d with
  | zero =>
    rw [show @idxNthD [2] ((1 : Fin 2), ()) 0 = 1 from rfl,
      show ([2] : List ℕ).getD 0 1 = 2 from rfl]
    rw [show wrapShift 1 2 = 1 by unfold wrapShift; norm_num]
    rw [show ((1 : ℝ) * ((2 : ℕ) : ℝ)) = ((2 : ℤ) : ℝ) by push_cast; ring]
    rw [roundEven_intCast]
    norm_num
  | succ d' =>
    rw [show @idxNthD [2] ((1 : Fin 2), ()) (d' + 1) = 0 from rfl,
      show ([2] : List ℕ).getD (d' + 1) 1 = 1 from rfl]
    rw [show wrapShift 0 1 = 0 by unfold wrapShift; norm_num]
    rw [show ((0 : ℝ) * ((2 : ℕ) : ℝ)) = ((0 : ℤ) : ℝ) by push_cast; ring]
    rw [roundEven_intCast]
    norm_num

theorem c3hoffs : ([(-1 : ℝ)] : List ℝ) = (List.range ([2] : List ℕ).length).map fun d =>
    ((upsDftshift 2 : ℤ) : ℝ) - (if d = 0 then (1 : ℝ) else 0) * ((2 : ℕ) : ℝ) := by
  simp only [upsDftshift_eq, upsRegionSize_eq]
  rw [show List.range ([2] : List ℕ).length = [0] from rfl]
  norm_num

/-- Counterexample to C3 as stated: a valid call (`space="fourier"`,
`normalization=None`, `upsample_factor=2`) on the 1-D inputs `c3ref`/`c3mov`
of shape `[2]` returns shift component `3/2`, which lies outside the claimed
interval `(-shape/2, shape/2] = (-1, 1]`: the subpixel correction can push the
refined shift past `shape/2`. -/
theorem claim3_counterexample :
    shiftAt (phase_cross_correlation [2] c3ref c3mov
      ⟨2, "fourier", false, false, false, 0, none⟩ 0) 0 = .ok (3 / 2) ∧
    ¬((3 : ℝ) / 2 ≤ (2 : ℝ) / 2) := by
  constructor
  · rw [pcc_ups_eq [2] c3ref c3mov ⟨2, "fourier", false, false, false, 0, none⟩ 0 rfl rfl
      c3ref c3mov c3hfp c3ip rfl ((1 : Fin 2), ()) c3mx (by decide)
      [3] (by rw [show upsRegionSize 2 = 3 by rw [upsRegionSize_eq]]; rfl)
      (fun d => if d = 0 then (1 : ℝ) else 0) c3hs1
      [(-1 : ℝ)] c3hoffs
      (fun k => (starRingEnd ℂ)
        (upsCore 2 [2] [3] [(-1 : ℝ)] (fun i => (starRingEnd ℂ) (c3ip i)) k)) rfl
      ((2 : Fin 3), ()) c3mx2]
    rw [shiftAt_pccFinish [2] _ rfl]
    rw [if_neg (by norm_num)]
    rw [show @idxNthD [3] ((2 : Fin 3), ()) 0 = 2 from rfl]
    simp only [upsDftshift_eq, upsRegionSize_eq]
    norm_num
  · norm_num

theorem getD_mem : ∀ (l : List ℕ) (d : ℕ), d < l.length → l.getD d 1 ∈ l
  | a :: l, 0, _ => by simp
  | a :: l, d + 1, h => by
    have := getD_mem l d (by simpa using h)
    simpa using Or.inr this

theorem wrapSpec_bounds (m n : ℕ) (hm : m < n) :
    -((n : ℝ) / 2) < wrapSpec m n ∧ wrapSpec m n ≤ (n : ℝ) / 2 := by
  unfold wrapSpec
  by_cases h : n / 2 < m
  · rw [if_pos h]
    have h1 : (n : ℝ) + 1 ≤ 2 * m := by exact_mod_cast (by omega : n + 1 ≤ 2 * m)
    have h2 : (m : ℝ) < n := by exact_mod_cast hm
    constructor <;> linarith
  · rw [if_neg h]
    have h2 : (2 * m : ℝ) ≤ n := by exact_mod_cast (by omega : 2 * m ≤ n)
    have h3 : (0 : ℝ) ≤ m := by positivity
    have hn : (0 : ℝ) < n := by exact_mod_cast (by omega : 0 < n)
    constructor <;> linarith

/-- Claim C3 (amended): for every valid call with `upsample_factor = 1`, each
returned shift component equals the wrap rule `maxima[d] - shape[d]` if
`maxima[d] > floor(shape[d]/2)` else `maxima[d]` (where `maxima` is the first
index of maximum magnitude of the cross-correlation surface, and the
singleton-axis override agrees with the rule), and lies in
`(-shape[d]/2, shape[d]/2]`.  For `upsample_factor > 1` the interval claim is
false — see `claim3_counterexample`. -/
theorem claim3_integer_shift (sh : List ℕ) (ref mov : Idx sh → ℂ)
    (cfg : PccConfig) (eps : ℝ)
    (hm1 : cfg.hasRefMask = false) (hm2 : cfg.hasMovMask = false)
    (hs : strLower cfg.space = "fourier" ∨ strLower cfg.space = "real")
    (hn : cfg.normalization = none ∨ cfg.normalization = some "phase")
    (hd : cfg.disambiguate = false)
    (hu1 : cfg.upsample_factor = 1)
    (hsh : ∀ n ∈ sh, 0 < n) :
    ∃ (sf tf ip : Idx sh → ℂ) (mx : Idx sh),
      freqPair sh ref mov cfg.space = .ok (sf, tf) ∧
      normalizeProduct sh cfg.normalization eps
        (fun i => sf i * (starRingEnd ℂ) (tf i)) = .ok ip ∧
      argmaxList (fun i => Complex.abs (ifftnRec sh ip i)) (enumIdx sh) = some mx ∧
      ∀ d : ℕ, d < sh.length →
        shiftAt (phase_cross_correlation sh ref mov cfg eps) d =
          .ok (wrapSpec (idxNthD mx d) (sh.getD d 1)) ∧
        -((sh.getD d 1 : ℝ) / 2) < wrapSpec (idxNthD mx d) (sh.getD d 1) ∧
        wrapSpec (idxNthD mx d) (sh.getD d 1) ≤ ((sh.getD d 1 : ℝ)) / 2 := by
  obtain ⟨sf, tf, hfp⟩ := freqPair_ok sh ref mov cfg.space hs
  obtain ⟨ip, hnp⟩ := normalizeProduct_ok sh cfg.normalization eps
    (fun i => sf i * (starRingEnd ℂ) (tf i)) hn
  obtain ⟨mx, hmx⟩ := argmaxList_isSome (fun i => Complex.abs (ifftnRec sh ip i)) _
    (enumIdx_ne_nil sh hsh)
  refine ⟨sf, tf, ip, mx, hfp, hnp, hmx, ?_⟩
  intro d hdlt
  have hlt := idxNthD_lt sh mx d hdlt
  have hbounds := wrapSpec_bounds (idxNthD mx d) (sh.getD d 1) hlt
  refine ⟨?_, hbounds.1, hbounds.2⟩
  rw [pcc_u1_eq sh ref mov cfg eps hm1 hm2 sf tf hfp ip hnp mx hmx hu1]
  rw [shiftAt_pccFinish sh cfg.disambiguate hd]
  by_cases h1 : sh.getD d 1 = 1
  · rw [if_pos h1]
    have h0 : idxNthD mx d = 0 := by omega
    rw [h0, h1]
    unfold wrapSpec
    norm_num
  · rw [if_neg h1, wrapShift_eq_wrapSpec]

/-- Witness for C3 (amended): concrete valid one-pixel call. -/
theorem claim3_witness :
    ∃ (sf tf ip : Idx [2] → ℂ) (mx : Idx [2]),
      freqPair [2] (fun _ => (0 : ℂ)) (fun _ => (0 : ℂ))
        (PccConfig.space ⟨1, "fourier", false, false, false, 0, none⟩) = .ok (sf, tf) ∧
      normalizeProduct [2]
        (PccConfig.normalization ⟨1, "fourier", false, false, false, 0, none⟩) 0
        (fun i => sf i * (starRingEnd ℂ) (tf i)) = .ok ip ∧
      argmaxList (fun i => Complex.abs (ifftnRec [2] ip i)) (enumIdx [2]) = some mx ∧
      ∀ d : ℕ, d < ([2] : List ℕ).length →
        shiftAt (phase_cross_correlation [2] (fun _ => (0 : ℂ)) (fun _ => (0 : ℂ))
          ⟨1, "fourier", false, false, false, 0, none⟩ 0) d =
          .ok (wrapSpec (idxNthD mx d) (([2] : List ℕ).getD d 1)) ∧
        -(((([2] : List ℕ).getD d 1) : ℝ) / 2) < wrapSpec (idxNthD mx d) (([2] : List ℕ).getD d 1) ∧
        wrapSpec (idxNthD mx d) (([2] : List ℕ).getD d 1) ≤ ((([2] : List ℕ).getD d 1 : ℝ)) / 2 :=
  claim3_integer_shift [2] (fun _ => 0) (fun _ => 0)
    ⟨1, "fourier", false, false, false, 0, none⟩ 0 rfl rfl (Or.inl (by decide))
    (Or.inl rfl) rfl rfl (by decide)

theorem fullDftN_zero : ∀ (dims : List ℕ) (js : List ℤ),
    fullDftN dims (fun _ => 0) js = 0
  | [], _ => rfl
  | n :: ns, js => by
    show (∑ p : Fin n, Complex.exp _ * fullDftN ns (fun _ => 0) js.tail) = 0
    rw [Finset.sum_congr rfl fun p _ => by rw [fullDftN_zero ns js.tail]]
    simp

theorem fullDftN_sum : ∀ (dims : List ℕ) {ι : Type} (s : Finset ι)
    (F : ι → Idx dims → ℂ) (js : List ℤ),
    fullDftN dims (fun q => ∑ m ∈ s, F m q) js = ∑ m ∈ s, fullDftN dims (F m) js
  | [], _, s, F, js => rfl
  | n :: ns, _, s, F, js => by
    show (∑ p : Fin n, Complex.exp _ *
      fullDftN ns (fun q => ∑ m ∈ s, F m (p, q)) js.tail) = _
    rw [Finset.sum_congr rfl fun p _ => by
      rw [fullDftN_sum ns s (fun m q => F m (p, q)) js.tail, Finset.mul_sum]]
    rw [Finset.sum_comm]
    rfl

theorem fullDftN_ite : ∀ (dims : List ℕ) (c : Prop) [Decidable c]
    (F : Idx dims → ℂ) (js : List ℤ),
    fullDftN dims (fun q => if c then F q else 0) js =
      if c then fullDftN dims F js else 0 := by
  intro dims c hc F js
  by_cases h : c
  · simp only [if_pos h]
  · simp only [if_neg h]
    exact fullDftN_zero dims js

theorem sum_ite_padPos {β : Type} [AddCommMonoid β] (N : ℕ) (c : ℤ)
    (h0 : 0 ≤ c) (hlt : c < N) (g : Fin N → β) :
    (∑ p : Fin N, if c = ((p : ℕ) : ℤ) then g p else 0) =
      g ⟨c.toNat, by omega⟩ := by
  rw [Finset.sum_eq_single (⟨c.toNat, by omega⟩ : Fin N)]
  · rw [if_pos]
    show c = ((c.toNat : ℕ) : ℤ)
    omega
  · intro b _ hb
    rw [if_neg]
    intro hc
    apply hb
    apply Fin.ext
    show (b : ℕ) = c.toNat
    omega
  · intro h
    exact absurd (Finset.mem_univ _) h

theorem exp_padPos_eq_kernel (u n : ℕ) (hu : 0 < u) (kk : ℕ) (o : ℤ) (m : Fin n) :
    Complex.exp ((((-2 : ℝ) * Real.pi *
      (((((kk : ℤ) - o) : ℤ) : ℝ) * (((padPos n u m).toNat : ℕ) : ℝ) / ((n * u : ℕ) : ℝ))) : ℝ) *
      Complex.I) = dftKernel u n ((o : ℤ) : ℝ) kk m := by
  unfold dftKernel
  rw [Complex.exp_eq_exp_iff_exists_int]
  refine ⟨((kk : ℤ) - o) * (fftfreqNum n m / ((n : ℤ) * (u : ℤ))), ?_⟩
  have hn : 0 < n := m.pos
  have hnR : (n : ℝ) ≠ 0 := by positivity
  have huR : (u : ℝ) ≠ 0 := by positivity
  have hq : (((padPos n u m).toNat : ℕ) : ℝ) =
      ((fftfreqNum n m : ℤ) : ℝ) -
        ((n : ℝ) * (u : ℝ)) * ((fftfreqNum n m / ((n : ℤ) * (u : ℤ)) : ℤ) : ℝ) := by
    have h0 : (0 : ℤ) ≤ padPos n u m :=
      Int.emod_nonneg _ (by positivity)
    have h1 : ((padPos n u m).toNat : ℤ) = padPos n u m := Int.toNat_of_nonneg h0
    have h2 : padPos n u m =
        fftfreqNum n m - ((n : ℤ) * (u : ℤ)) * (fftfreqNum n m / ((n : ℤ) * (u : ℤ))) := by
      unfold padPos
      rw [Int.emod_def]
    rw [show (((padPos n u m).toNat : ℕ) : ℝ) = ((((padPos n u m).toNat : ℤ)) : ℝ) by
        push_cast; ring,
      h1, h2]
    push_cast
    ring
  have hreal : ((-2 : ℝ) * Real.pi *
      (((((kk : ℤ) - o) : ℤ) : ℝ) * (((padPos n u m).toNat : ℕ) : ℝ) / ((n * u : ℕ) : ℝ))) =
      ((-2 : ℝ) * Real.pi *
        (((kk : ℝ) - ((o : ℤ) : ℝ)) * ((fftfreqNum n m : ℝ) / ((n : ℝ) * (u : ℝ))))) +
        ((((kk : ℤ) - o) * (fftfreqNum n m / ((n : ℤ) * (u : ℤ))) : ℤ) : ℝ) * (2 * Real.pi) := by
    rw [hq, show ((n * u : ℕ) : ℝ) = (n : ℝ) * (u : ℝ) by push_cast; ring]
    push_cast
    field_simp
    ring
  rw [show ((((-2 : ℝ) * Real.pi *
      (((((kk : ℤ) - o) : ℤ) : ℝ) * (((padPos n u m).toNat : ℕ) : ℝ) / ((n * u : ℕ) : ℝ))) : ℝ) :
        ℂ) * Complex.I =
      ((((-2 : ℝ) * Real.pi *
        (((kk : ℝ) - ((o : ℤ) : ℝ)) * ((fftfreqNum n m : ℝ) / ((n : ℝ) * (u : ℝ))))) : ℝ) : ℂ) *
          Complex.I +
        ((((kk : ℤ) - o) * (fftfreqNum n m / ((n : ℤ) * (u : ℤ))) : ℤ) : ℂ) *
          (2 * (Real.pi : ℂ) * Complex.I) by
    rw [hreal]
    push_cast
    ring]

theorem upsCore_eq_paddedDftSlice (u : ℕ) (hu : 0 < u) : ∀ (sh region : List ℕ)
    (off : List ℤ) (data : Idx sh → ℂ) (k : Idx region),
    region.length = sh.length → off.length = sh.length →
    upsCore u sh region (off.map fun z => ((z : ℤ) : ℝ)) data k =
      paddedDftSlice sh u data (idxSubList region k off)
  | [], [], _, data, k, _, _ => rfl
  | [], _ :: _, _, _, _, h, _ => by simp at h
  | _ :: _, [], _, _, _, h, _ => by simp at h
  | _ :: _, _ :: _, [], _, _, _, h => by simp at h
  | n :: ns, r :: rs, o :: os, data, k, hr, ho => by
    have hr' : rs.length = ns.length := by simpa using hr
    have ho' : os.length = ns.length := by simpa using ho
    rw [show upsCore u (n :: ns) (r :: rs) ((o :: os).map fun z => ((z : ℤ) : ℝ)) data k =
        ∑ m : Fin n, dftKernel u n ((o : ℤ) : ℝ) ((k.1 : ℕ)) m *
          upsCore u ns rs (os.map fun z => ((z : ℤ) : ℝ)) (fun i => data (m, i)) k.2 from rfl]
    rw [Finset.sum_congr rfl fun m _ => by
      rw [upsCore_eq_paddedDftSlice u hu ns rs os (fun i => data (m, i)) k.2 hr' ho']]
    rw [show paddedDftSlice (n :: ns) u data (idxSubList (r :: rs) k (o :: os)) =
        ∑ p : Fin (n * u),
          Complex.exp ((((-2 : ℝ) * Real.pi *
            ((((((k.1 : ℕ) : ℤ) - o : ℤ)) : ℝ) * ((p : ℕ) : ℝ) / ((n * u : ℕ) : ℝ))) : ℝ) *
            Complex.I) *
          fullDftN (padDims ns u) (fun q => padArrN (n :: ns) u data (p, q))
            (idxSubList rs k.2 os) from rfl]
    have hstep : ∀ p : Fin (n * u),
        Complex.exp ((((-2 : ℝ) * Real.pi *
            ((((((k.1 : ℕ) : ℤ) - o : ℤ)) : ℝ) * ((p : ℕ) : ℝ) / ((n * u : ℕ) : ℝ))) : ℝ) *
            Complex.I) *
          fullDftN (padDims ns u) (fun q => padArrN (n :: ns) u data (p, q))
            (idxSubList rs k.2 os) =
        ∑ m : Fin n,
          if padPos n u m = ((p : ℕ) : ℤ) then
            Complex.exp ((((-2 : ℝ) * Real.pi *
              ((((((k.1 : ℕ) : ℤ) - o : ℤ)) : ℝ) * ((p : ℕ) : ℝ) / ((n * u : ℕ) : ℝ))) : ℝ) *
              Complex.I) *
            fullDftN (padDims ns u) (padArrN ns u (fun i => data (m, i)))
              (idxSubList rs k.2 os)
          else 0 := by
      intro p
      rw [show (fun q => padArrN (n :: ns) u data (p, q)) =
          fun q => ∑ m : Fin n,
            if padPos n u m = ((p : ℕ) : ℤ) then padArrN ns u (fun i => data (m, i)) q else 0
          from rfl]
      rw [fullDftN_sum (padDims ns u) Finset.univ
        (fun m q => if padPos n u m = ((p : ℕ) : ℤ) then padArrN ns u (fun i => data (m, i)) q
          else 0) (idxSubList rs k.2 os)]
      rw [Finset.sum_congr rfl fun m _ => fullDftN_ite (padDims ns u)
        (padPos n u m = ((p : ℕ) : ℤ)) (padArrN ns u (fun i => data (m, i)))
        (idxSubList rs k.2 os)]
      rw [Finset.mul_sum]
      exact Finset.sum_congr rfl fun m _ => by rw [mul_ite, mul_zero]
    rw [Finset.sum_congr rfl fun p _ => hstep p]
    rw [Finset.sum_comm]
    refine Finset.sum_congr rfl fun m _ => ?_
    have h0 : (0 : ℤ) ≤ padPos n u m := Int.emod_nonneg _ (by
      have := m.pos
      positivity)
    have hlt : padPos n u m < ((n * u : ℕ) : ℤ) := by
      have hnu : (0 : ℤ) < ((n : ℤ) * (u : ℤ)) := by
        have := m.pos
        positivity
      calc padPos n u m < (n : ℤ) * (u : ℤ) := Int.emod_lt_of_pos _ hnu
        _ = ((n * u : ℕ) : ℤ) := by push_cast; ring
    rw [sum_ite_padPos (n * u) (padPos n u m) h0 hlt
      (fun p => Complex.exp ((((-2 : ℝ) * Real.pi *
          ((((((k.1 : ℕ) : ℤ) - o : ℤ)) : ℝ) * ((p : ℕ) : ℝ) / ((n * u : ℕ) : ℝ))) : ℝ) *
          Complex.I) *
        fullDftN (padDims ns u) (padArrN ns u (fun i => data (m, i))) (idxSubList rs k.2 os))]
    rw [show ((⟨(padPos n u m).toNat, by omega⟩ : Fin (n * u)) : ℕ) = (padPos n u m).toNat
      from rfl]
    rw [exp_padPos_eq_kernel u n hu ((k.1 : ℕ)) o m]
    rfl

/-- Claim C2 (amended): for every complex array, positive integer upsample
factor, region size and *integer* axis offsets (with sequence lengths
matching the dimensionality), the result of `_upsampled_dft` at window
position `k` equals the full DFT of the zero-padded, inverse-shifted array,
read at the integer frequencies `k - axis_offsets` per axis — i.e. the
extracted window starts at **minus** `axis_offsets`, not at `axis_offsets`
as the claim (and the source docstring) state; see `claim2_counterexample`. -/
theorem claim2_padded_equivalence (u : ℕ) (hu : 0 < u) (sh region : List ℕ)
    (off : List ℤ) (data : Idx sh → ℂ) (k : Idx region)
    (hr : region.length = sh.length) (ho : off.length = sh.length) :
    upsCore u sh region (off.map fun z => ((z : ℤ) : ℝ)) data k =
      paddedDftSlice sh u data (idxSubList region k off) :=
  upsCore_eq_paddedDftSlice u hu sh region off data k hr ho

/-- Witness for C2 (amended), at a concrete one-dimensional call. -/
theorem claim2_witness :
    upsCore 2 [2] [1] ([(1 : ℤ)].map fun z => ((z : ℤ) : ℝ)) c2data ((0 : Fin 1), ()) =
      paddedDftSlice [2] 2 c2data (idxSubList [1] ((0 : Fin 1), ()) [(1 : ℤ)]) :=
  claim2_padded_equivalence 2 (by decide) [2] [1] [(1 : ℤ)] c2data ((0 : Fin 1), ())
    (by decide) (by decide)

theorem exp_neg_half_pi_I : Complex.exp (((-(Real.pi / 2) : ℝ) : ℂ) * Complex.I) = -Complex.I := by
  rw [expI_eval]
  simp [Real.cos_pi_div_two, Real.sin_pi_div_two]

theorem exp_neg_pi_I : Complex.exp (((-Real.pi : ℝ) : ℂ) * Complex.I) = -1 := by
  rw [expI_eval]
  simp [Real.cos_pi, Real.sin_pi]

theorem c2upsval :
    upsCore 2 [2] [1] [((1 : ℤ) : ℝ)] c2data ((0 : Fin 1), ()) = -Complex.I := by
  show (∑ m : Fin 2,
      dftKernel 2 2 (((1 : ℤ) : ℝ)) (((0 : Fin 1) : ℕ)) m *
        upsCore 2 [] [] [] (fun i => c2data (m, i)) ()) = -Complex.I
  rw [Fin.sum_univ_two]
  show dftKernel 2 2 (((1 : ℤ) : ℝ)) (((0 : Fin 1) : ℕ)) 0 * c2data ((0 : Fin 2), ()) +
      dftKernel 2 2 (((1 : ℤ) : ℝ)) (((0 : Fin 1) : ℕ)) 1 * c2data ((1 : Fin 2), ()) = -Complex.I
  rw [show c2data ((0 : Fin 2), ()) = 0 by norm_num [c2data],
    show c2data ((1 : Fin 2), ()) = 1 by norm_num [c2data]]
  rw [show dftKernel 2 2 (((1 : ℤ) : ℝ)) (((0 : Fin 1) : ℕ)) 1 =
      Complex.exp (((-(Real.pi / 2) : ℝ) : ℂ) * Complex.I) by
    unfold dftKernel
    congr 2
    rw [show fftfreqNum 2 (1 : Fin 2) = -1 from by decide,
      show ((0 : Fin 1) : ℕ) = 0 from rfl]
    push_cast
    ring]
  rw [exp_neg_half_pi_I]
  ring

theorem c2pad0 : padArrN [2] 2 c2data ((0 : Fin 4), ()) = 0 := by
  show (∑ m : Fin 2,
    if padPos 2 2 m = (((0 : Fin 4) : ℕ) : ℤ) then
      padArrN [] 2 (fun i => c2data (m, i)) () else 0) = 0
  rw [Fin.sum_univ_two]
  rw [if_pos (by decide), if_neg (by decide)]
  show c2data ((0 : Fin 2), ()) + 0 = 0
  norm_num [c2data]

theorem c2pad1 : padArrN [2] 2 c2data ((1 : Fin 4), ()) = 0 := by
  show (∑ m : Fin 2,
    if padPos 2 2 m = (((1 : Fin 4) : ℕ) : ℤ) then
      padArrN [] 2 (fun i => c2data (m, i)) () else 0) = 0
  rw [Fin.sum_univ_two]
  rw [if_neg (by decide), if_neg (by decide)]
  norm_num

theorem c2pad2 : padArrN [2] 2 c2data ((2 : Fin 4), ()) = 0 := by
  show (∑ m : Fin 2,
    if padPos 2 2 m = (((2 : Fin 4) : ℕ) : ℤ) then
      padArrN [] 2 (fun i => c2data (m, i)) () else 0) = 0
  rw [Fin.sum_univ_two]
  rw [if_neg (by decide), if_neg (by decide)]
  norm_num

theorem c2pad3 : padArrN [2] 2 c2data ((3 : Fin 4), ()) = 1 := by
  show (∑ m : Fin 2,
    if padPos 2 2 m = (((3 : Fin 4) : ℕ) : ℤ) then
      padArrN [] 2 (fun i => c2data (m, i)) () else 0) = 1
  rw [Fin.sum_univ_two]
  rw [if_neg (by decide), if_pos (by decide)]
  show 0 + c2data ((1 : Fin 2), ()) = 1
  norm_num [c2data]

theorem c2padslice : paddedDftSlice [2] 2 c2data [(1 : ℤ)] = Complex.I := by
  show (∑ p : Fin 4,
      Complex.exp ((((-2 : ℝ) * Real.pi *
        (((([(1 : ℤ)] : List ℤ).headD 0 : ℤ) : ℝ) * ((p : ℕ) : ℝ) / ((2 * 2 : ℕ) : ℝ))) : ℝ) *
        Complex.I) *
      fullDftN [] (fun q => padArrN [2] 2 c2data (p, q)) ([(1 : ℤ)] : List ℤ).tail) = Complex.I
  rw [Fin.sum_univ_four]
  show Complex.exp _ * padArrN [2] 2 c2data ((0 : Fin 4), ()) +
    Complex.exp _ * padArrN [2] 2 c2data ((1 : Fin 4), ()) +
    Complex.exp _ * padArrN [2] 2 c2data ((2 : Fin 4), ()) +
    Complex.exp _ * padArrN [2] 2 c2data ((3 : Fin 4), ()) = Complex.I
  rw [c2pad0, c2pad1, c2pad2, c2pad3]
  rw [mul_zero, mul_zero, mul_zero, mul_one]
  rw [show ((((-2 : ℝ) * Real.pi *
      (((([(1 : ℤ)] : List ℤ).headD 0 : ℤ) : ℝ) * (((3 : Fin 4) : ℕ) : ℝ) / ((2 * 2 : ℕ) : ℝ))) : ℝ) : ℂ) *
      Complex.I =
      ((-Real.pi : ℝ) : ℂ) * Complex.I + ((-(Real.pi / 2) : ℝ) : ℂ) * Complex.I by
    rw [show ((3 : Fin 4) : ℕ) = 3 from rfl,
      show (([(1 : ℤ)] : List ℤ).headD 0) = 1 from rfl]
    push_cast
    ring]
  rw [Complex.exp_add, exp_neg_pi_I, exp_neg_half_pi_I]
  ring

/-- Counterexample to C2 as stated: for `data = (0, 1)`, `upsample_factor 2`,
`region_size [1]` and `axis_offsets [1]`, the `_upsampled_dft` output at
window position `k = 0` is `-i`, while the zero-padded full DFT read at the
window starting at `axis_offsets` (frequency `axis_offsets[0] + k = 1`) is
`+i`: the two differ, because the kernel uses `(k - offset)`, so the
equivalent window starts at `-axis_offsets`. -/
theorem claim2_counterexample :
    upsCore 2 [2] [1] [((1 : ℤ) : ℝ)] c2data ((0 : Fin 1), ()) = -Complex.I ∧
    paddedDftSlice [2] 2 c2data [(1 : ℤ) + (((0 : Fin 1) : ℕ) : ℤ)] = Complex.I ∧
    upsCore 2 [2] [1] [((1 : ℤ) : ℝ)] c2data ((0 : Fin 1), ()) ≠
      paddedDftSlice [2] 2 c2data [(1 : ℤ) + (((0 : Fin 1) : ℕ) : ℤ)] := by
  have h1 := c2upsval
  have h2 : paddedDftSlice [2] 2 c2data [(1 : ℤ) + (((0 : Fin 1) : ℕ) : ℤ)] = Complex.I := by
    rw [show ((1 : ℤ) + (((0 : Fin 1) : ℕ) : ℤ)) = 1 from rfl]
    exact c2padslice
  refine ⟨h1, h2, ?_⟩
  rw [h1, h2]
  intro hcon
  have := congrArg Complex.im hcon
  simp at this
  norm_num at this
